import Mathlib

/-
Verification development for the tinyfly in-memory key-value store
(src/tinyfly.js, first document; helper hash module in src/hash/).

The JavaScript source is shallowly embedded:
  * Node `Buffer`s and typed arrays become `List Nat` of byte / u32 values.
  * JS strings are modelled as their lists of character codes; all keys and
    values used in theorems are ASCII, where `Buffer.from` is the identity
    on codes.
  * Out-of-bounds writes to typed arrays are silently dropped in JS; this is
    exactly the behaviour of `List.set`, which returns the list unchanged
    when the index is out of range.
  * `Buffer.readUInt8/readUInt32BE/writeUInt8/writeInt32BE` throw a
    `RangeError` when out of bounds; these and failed `assert`s are modelled
    as explicit error results (`JsRes.err` / `Option.none`), carrying the
    state as mutated so far.
-/

set_option maxHeartbeats 1000000

/-- Result of a stateful JS operation: a normal return value together with the
post-state, or a thrown exception (assert failure / RangeError) together with
the state as mutated before the throw. -/
inductive JsRes (α σ : Type) where
  | ok : α → σ → JsRes α σ
  | err : String → σ → JsRes α σ
deriving DecidableEq, Repr

/-- 2^32; all hash arithmetic in the source is 32-bit. -/
def U32 : Nat := 4294967296

/-- End-of-chain sentinel `EOC = 0xffffffff` from src/tinyfly.js. -/
def EOC : Nat := 4294967295

/-- The seeded djb2-like string hash of src/hash (non-wasm branch, identical to
the wasm module's arithmetic): `h = ((h << 5) - h) + code` with 32-bit
truncation, i.e. `h := (31*h + code) mod 2^32`, starting from the seed, and the
final `>>> 0` yields the unsigned residue.  An empty string returns the seed. -/
def calcHash (seed : Nat) (s : List Nat) : Nat :=
  s.foldl (fun h c => (31 * h + c) % U32) seed

/-- Bit `offset = j % 8` of byte `base = j >> 3` of a byte array, the indexing
scheme used by BitMap and BloomFilter (`base = id >> 3`, `offset = id & 7`). -/
def bitGet (a : List Nat) (j : Nat) : Bool :=
  (a.getD (j / 8) 0).testBit (j % 8)

/-- Every byte of the array is in the `Buffer` range `0..255` (out-of-range
reads default to 0, which is in range). -/
def BytesLt (a : List Nat) : Prop := ∀ i, a.getD i 0 < 256

/-- `b |= 1 << o` followed by the `ToUint8` coercion of a Buffer store. -/
def byteSetBit (b o : Nat) : Nat :=
  (b ||| (1 <<< o)) % 256

/-- `b &= ~(1 << o)` followed by `ToUint8`: keeps the low eight bits of `b`
except bit `o` (the JS `~` sets every higher bit, `ToUint8` drops them). -/
def byteClearBit (b o : Nat) : Nat :=
  b &&& (255 - (1 <<< o))

/-- `Buffer.slice(a, b)`: the byte range `[a, b)`, clamped to the buffer. -/
def listSlice (buf : List Nat) (a b : Nat) : List Nat :=
  (buf.take b).drop a

/-- `String.prototype.split('\0')` on a decoded payload: the maximal
null-free segments, splitting at **every** null byte. -/
def splitNull : List Nat → List (List Nat)
  | [] => [[]]
  | c :: rest =>
    if c = 0 then [] :: splitNull rest
    else
      match splitNull rest with
      | s :: ss => (c :: s) :: ss
      | [] => [[c]]

/-- `buffer.readUInt32BE(off)`: big-endian u32 at `off`, `none` when the read
would run past the end of the buffer (Node throws a RangeError). -/
def readU32BE? (buf : List Nat) (off : Nat) : Option Nat :=
  if off + 4 ≤ buf.length then
    some (buf.getD off 0 * 16777216 + buf.getD (off + 1) 0 * 65536 +
          buf.getD (off + 2) 0 * 256 + buf.getD (off + 3) 0)
  else none

/-- `buffer.writeUInt8(v, off)`: bounds- and range-checked byte store. -/
def writeU8? (buf : List Nat) (v off : Nat) : Option (List Nat) :=
  if off < buf.length ∧ v < 256 then some (buf.set off v) else none

/-- `buffer.writeInt32BE(v, off)` for the non-negative values the source
writes: stores the four big-endian bytes, `none` on a bounds or range error. -/
def writeI32BE? (buf : List Nat) (v off : Nat) : Option (List Nat) :=
  if off + 4 ≤ buf.length ∧ v < 2147483648 then
    some ((((buf.set off (v / 16777216 % 256)).set (off + 1) (v / 65536 % 256)).set
        (off + 2) (v / 256 % 256)).set (off + 3) (v % 256))
  else none

/-- `data.copy(target, tstart)`: copies `data` into `target` at `tstart`,
silently truncated at the end of `target`. -/
def bufCopy (src tgt : List Nat) (tstart : Nat) : List Nat :=
  tgt.take tstart ++ src.take (tgt.length - tstart) ++ tgt.drop (tstart + src.length)

/-- Inner loop of `BitMap.fetch`: first cleared bit of a byte, scanning
offsets 0..7 in ascending order. -/
def byteFirstFree (b : Nat) : Option Nat :=
  if b.testBit 0 = false then some 0
  else if b.testBit 1 = false then some 1
  else if b.testBit 2 = false then some 2
  else if b.testBit 3 = false then some 3
  else if b.testBit 4 = false then some 4
  else if b.testBit 5 = false then some 5
  else if b.testBit 6 = false then some 6
  else if b.testBit 7 = false then some 7
  else none

/-- `BitMap.fetch` (src/tinyfly.js:30-40): scan bases in ascending order, bits
0..7 within each byte; set the first cleared bit and return its slot id
`(base << 3) | offset` (written here as `8 * base + offset`, the same number
since `offset < 8`).  `none` models the return value `-1`. -/
def bitmapFetch : List Nat → Option (Nat × List Nat)
  | [] => none
  | b :: rest =>
    match byteFirstFree b with
    | some o => some (o, byteSetBit b o :: rest)
    | none =>
      match bitmapFetch rest with
      | some (s, r) => some (s + 8, b :: r)
      | none => none

/-- Set bit `p % 8` of byte `p / 8` in a byte array — the store pattern
shared by `BitMap.fetch` and `BloomFilter.add`. -/
def bitSetAt (a : List Nat) (p : Nat) : List Nat :=
  a.set (p / 8) (byteSetBit (a.getD (p / 8) 0) (p % 8))

/-- Clear bit `p % 8` of byte `p / 8` in a byte array — the store pattern
shared by `BitMap.free` and `BloomFilter.remove`. -/
def bitClearAt (a : List Nat) (p : Nat) : List Nat :=
  a.set (p / 8) (byteClearBit (a.getD (p / 8) 0) (p % 8))

/-- `BitMap.free(id)` (src/tinyfly.js:41-52): clear bit `id & 7` of byte
`id >> 3`.  The source asserts `id < 8 * |array|`; every call site proved
about below satisfies the assertion, which is therefore not reified. -/
def bitmapFree (a : List Nat) (id : Nat) : List Nat :=
  bitClearAt a id

/-- The five bloom seeds of the Index constructor (src/tinyfly.js:252). -/
def bloomSeeds : List Nat := [1087, 1697, 2039, 2843, 3041]

/-- The bit positions touched by the bloom filter for a key: the source
computes `hfunc(key) % this._buffer.length`, i.e. the hash modulo the byte
length of the backing buffer (not modulo the number of bits). -/
def bloomPositions (len : Nat) (key : List Nat) : List Nat :=
  bloomSeeds.map fun sd => calcHash sd key % len

/-- `BloomFilter.add` (src/tinyfly.js:71-84): set bit `p & 7` of byte `p >> 3`
for every position `p` (the positions are computed once, over the original
buffer length, exactly as the source's `.map` before the `.forEach`). -/
def bloomAdd (key : List Nat) (buf : List Nat) : List Nat :=
  (bloomPositions buf.length key).foldl bitSetAt buf

/-- `BloomFilter.remove` (src/tinyfly.js:85-98): clear the same bits. -/
def bloomRemove (key : List Nat) (buf : List Nat) : List Nat :=
  (bloomPositions buf.length key).foldl bitClearAt buf

/-- `BloomFilter.has` (src/tinyfly.js:99-109): true iff every one of the five
bits is set. -/
def bloomHas (key : List Nat) (buf : List Nat) : Bool :=
  (bloomPositions buf.length key).all fun p => (buf.getD (p / 8) 0).testBit (p % 8)

/-- State of the direct-mapped Cache (src/tinyfly.js:112-148): parallel key
and value arrays; `none` models the JS `null` slot. -/
structure CacheSt where
  keys : List (Option (List Nat))
  values : List (Option (List Nat))
deriving DecidableEq, Repr

/-- `Cache.set` (src/tinyfly.js:129-134): unconditional overwrite of slot
`hash(key) % size`, seed 731. -/
def cacheSet (k v : List Nat) (c : CacheSt) : CacheSt :=
  let i := calcHash 731 k % c.keys.length
  ⟨c.keys.set i (some k), c.values.set i (some v)⟩

/-- `Cache.remove` (src/tinyfly.js:139-147): clear the slot only when its key
equals `k`. -/
def cacheRemove (k : List Nat) (c : CacheSt) : CacheSt :=
  let i := calcHash 731 k % c.keys.length
  if c.keys.getD i none = some k then ⟨c.keys.set i none, c.values.set i none⟩ else c

/-- Storage state (src/tinyfly.js:155-164): the heap byte buffer and the scan
cursor `_lastOffset`. -/
structure StorageSt where
  buf : List Nat
  lastOffset : Nat
deriving DecidableEq, Repr

/-- `Storage.clear` (src/tinyfly.js:165-169): header `(FREE, buffer.length)`
at offset 0.  Note the written size is the **whole** region length, although
the header itself occupies the first five of those bytes. -/
def storageClear (buf : List Nat) : Option (List Nat) :=
  (writeU8? buf 0 0).bind fun b1 => writeI32BE? b1 buf.length 1

/-- The walk loop of `Storage._save` (src/tinyfly.js:180-204).  At each offset
it asserts `offset < buffer.length`, a sane flag and a positive size; a failed
assertion or an out-of-range read throws (`JsRes.err`).  On a fit it marks the
block BUSY, writes the data length and payload, and splits off a residual FREE
header when `size - data.length - 5 > 0` (phrased on `Nat` as
`5 + data.length < size`).  The `for (;;)` loop of the source has no `break`:
its only exits are a `return offset` on fit or a throw, so the trailing
`return -1` of `_save` is unreachable and no `-1` result exists here.
Since each iteration either exits or advances the cursor by `size + 5 ≥ 6`
while the loop head requires `offset < buffer.length`, the walk performs at
most `buffer.length + 1` iterations; the structural `fuel` argument (always
instantiated with `buffer.length + 1` by `storageSave`) only bounds the
recursion and its exhaustion case is unreachable. -/
def saveLoop (data : List Nat) (buf : List Nat) : Nat → Nat → JsRes Nat (List Nat)
  | 0, _ => .err "unreachable: walk fuel exhausted" buf
  | fuel + 1, off =>
    if off < buf.length then
      let flag := buf.getD off 0
      if flag = 0 ∨ flag = 1 then
        match readU32BE? buf (off + 1) with
        | none => .err "RangeError: readUInt32BE" buf
        | some size =>
          if 0 < size then
            if flag = 0 ∧ data.length ≤ size then
              match writeU8? buf 1 off with
              | none => .err "RangeError: writeUInt8" buf
              | some b1 =>
                match writeI32BE? b1 data.length (off + 1) with
                | none => .err "RangeError: writeInt32BE" b1
                | some b2 =>
                  let b3 := bufCopy data b2 (off + 5)
                  if 5 + data.length < size then
                    match writeU8? b3 0 (off + 5 + data.length) with
                    | none => .err "RangeError: writeUInt8" b3
                    | some b4 =>
                      match writeI32BE? b4 (size - data.length - 5) (off + 5 + data.length + 1) with
                      | none => .err "RangeError: writeInt32BE" b4
                      | some b5 => .ok off b5
                  else .ok off b3
            else saveLoop data buf fuel (off + size + 5)
          else .err "assert failed: size > 0" buf
      else .err "assert failed: flag is FREE or BUSY" buf
    else .err "assert failed: offset < buffer.length" buf

/-- `Storage.save` (src/tinyfly.js:170-179): `data = key || 0x00 || value`;
walk from `_lastOffset`; the source then retries from 0 if the walk returned
`-1` — a dead branch, since the walk loop cannot return `-1` (see `saveLoop`);
it is kept for structural fidelity.  On success the cursor moves to the
returned offset. -/
def storageSave (k v : List Nat) (st : StorageSt) : JsRes Int StorageSt :=
  let data := k ++ 0 :: v
  match saveLoop data st.buf (st.buf.length + 1) st.lastOffset with
  | .err e b => .err e ⟨b, st.lastOffset⟩
  | .ok off b =>
    if (off : Int) = -1 then
      match saveLoop data b (b.length + 1) 0 with
      | .err e b2 => .err e ⟨b2, st.lastOffset⟩
      | .ok off2 b2 => .ok (off2 : Int) ⟨b2, off2⟩
    else .ok (off : Int) ⟨b, off⟩

/-- `Storage.getKey` (src/tinyfly.js:205-218) as the pure function used by the
façade's `check` closures: `null` (FREE block) is `none`; the first segment of
the payload split on nulls otherwise.  The source's asserts and read bounds
(offset in range, flag 0 or 1, positive size) throw in JS and are modelled as
`none`; no theorem below evaluates them on such inputs. -/
def getKeyPure (buf : List Nat) (off : Nat) : Option (List Nat) :=
  if off < buf.length then
    let flag := buf.getD off 0
    if flag = 0 then none
    else if flag = 1 then
      match readU32BE? buf (off + 1) with
      | none => none
      | some size =>
        if 0 < size then some ((splitNull (listSlice buf (off + 5) (off + 5 + size))).headD [])
        else none
    else none
  else none

/-- `Storage.getValue` (src/tinyfly.js:219-227): read the flag (no asserts in
the source, but an out-of-range read still throws); `null` for a FREE block;
otherwise decode the payload, split on **every** null (`String.split('\0')`)
and return element 1 — the segment between the first and the second null —
with the JS `undefined` for a payload with no null modelled as `none`. -/
def storageGetValue (off : Nat) (st : StorageSt) : JsRes (Option (List Nat)) StorageSt :=
  if off < st.buf.length then
    let flag := st.buf.getD off 0
    if flag = 0 then .ok none st
    else
      match readU32BE? st.buf (off + 1) with
      | none => .err "RangeError: readUInt32BE" st
      | some size => .ok ((splitNull (listSlice st.buf (off + 5) (off + 5 + size))).get? 1) st
  else .err "RangeError: readUInt8" st

/-- `Storage.delete` (src/tinyfly.js:228-236): false on a FREE block; otherwise
rewrite only the flag byte to FREE, move `_lastOffset` to this offset and
return true. -/
def storageDelete (off : Nat) (st : StorageSt) : JsRes Bool StorageSt :=
  if off < st.buf.length then
    if st.buf.getD off 0 = 0 then .ok false st
    else .ok true ⟨st.buf.set off 0, off⟩
  else .err "RangeError: readUInt8" st

/-- The heap-walk procedure of the spec's invariant: starting from an offset,
repeatedly read the header `(flag, size)` and advance by `size + 5`; the
result is the first cursor value at or past the end of the buffer (`none` on
an unreadable header or fuel exhaustion).  The invariant claims the walk from
0 lands exactly on the heap end. -/
def heapWalk (buf : List Nat) : Nat → Nat → Option Nat
  | 0, _ => none
  | fuel + 1, off =>
    if off < buf.length then
      match readU32BE? buf (off + 1) with
      | none => none
      | some size => heapWalk buf fuel (off + size + 5)
    else some off

/-- State of the Index (src/tinyfly.js:242-401): the slot bitmap and bloom
buffers (bytes) and the hash table and node arrays (u32 entries).  The node
triple of slot `s` lives at `nodes[3*s .. 3*s+2]`
(`getNodeBlockOffset(s) = s + (s << 1) = 3*s`). -/
structure IndexSt where
  bitmap : List Nat
  bloom : List Nat
  table : List Nat
  nodes : List Nat
deriving DecidableEq, Repr

/-- The state produced by `Index.clear` (src/tinyfly.js:259-266): zeroed
bitmap and bloom, every bucket head `EOC`; the node array keeps whatever the
constructor found in the arena (`clear` does not touch it). -/
def initIdx (m b t : Nat) (nodes0 : List Nat) : IndexSt :=
  ⟨List.replicate m 0, List.replicate b 0, List.replicate t EOC, nodes0⟩

/-- Successful-allocation tail of both insert branches of `Index.set`
(src/tinyfly.js:317-330 and 342-355): fill the fresh node triple — note the
source sets the new node's next pointer to `EOC`, also when inserting in
front of an existing node — link it from the predecessor (or the bucket head
when `pred = EOC`), add the key to the bloom filter. -/
def setInsert (key : List Nat) (h idx id pred s : Nat) (bm : List Nat) (st : IndexSt) :
    IndexSt :=
  let nodes1 := ((st.nodes.set (3 * s) h).set (3 * s + 1) id).set (3 * s + 2) EOC
  if pred = EOC then
    { st with
        bitmap := bm, nodes := nodes1, table := st.table.set idx s,
        bloom := bloomAdd key st.bloom }
  else
    { st with
        bitmap := bm, nodes := nodes1.set (3 * pred + 2) s,
        bloom := bloomAdd key st.bloom }

/-- Failed-allocation tail of both insert branches of `Index.set`: the source
does not check `bitmap.fetch()` for `-1`.  With `new_offset = -1` the three
node stores go to negative typed-array indices and are dropped, and the link
store writes `ToUint32(-1) = 0xffffffff = EOC` into `table[idx]` (clobbering
the bucket head) or into the predecessor's next pointer (truncating the
chain); then `bloom.add(key)` runs and `true` is returned. -/
def setClobber (key : List Nat) (idx pred : Nat) (st : IndexSt) : IndexSt :=
  if pred = EOC then
    { st with table := st.table.set idx EOC, bloom := bloomAdd key st.bloom }
  else
    { st with nodes := st.nodes.set (3 * pred + 2) EOC, bloom := bloomAdd key st.bloom }

/-- The chain walk of `Index.set` (src/tinyfly.js:316-361).  `pred`/`curr`
are the predecessor and current slot (`EOC` at the ends).  The JS loop is
unbounded; `fuel` bounds the walk and `none` marks a walk that would not have
terminated within it (never the case in the states proved about below). -/
def setLoop (key : List Nat) (h idx id : Nat) (chk : Nat → Bool) :
    Nat → Nat → Nat → IndexSt → Option (Bool × IndexSt)
  | 0, _, _, _ => none
  | fuel + 1, pred, curr, st =>
    if curr = EOC then
      match bitmapFetch st.bitmap with
      | some (s, bm) => some (true, setInsert key h idx id pred s bm st)
      | none => some (true, setClobber key idx pred st)
    else
      let a := 3 * curr
      let ch := st.nodes.getD a 0
      let cid := st.nodes.getD (a + 1) 0
      let cnext := st.nodes.getD (a + 2) 0
      if ch = h ∧ chk cid = true then some (false, st)
      else if h > ch then
        match bitmapFetch st.bitmap with
        | some (s, bm) => some (true, setInsert key h idx id pred s bm st)
        | none => some (true, setClobber key idx pred st)
      else setLoop key h idx id chk fuel curr cnext st

/-- `Index.set` (src/tinyfly.js:304-362): hash with seed 199, bucket
`hash % table.length`, then walk the chain from the bucket head.  The
source's `assert(key)` is enforced by the façade wrapper below; no caller in
this development passes an empty key. -/
def indexSet (fuel id : Nat) (key : List Nat) (chk : Nat → Bool) (st : IndexSt) :
    Option (Bool × IndexSt) :=
  let h := calcHash 199 key
  let idx := h % st.table.length
  setLoop key h idx id chk fuel EOC (st.table.getD idx 0) st

/-- The chain walk of `Index.delete` (src/tinyfly.js:375-399): on a match,
splice the node out, free its slot bit and remove the key from the bloom
filter, returning the record id; `-1` at the end of the chain or when the
sought hash exceeds the current one (descending order short-circuit). -/
def delLoop (key : List Nat) (h idx : Nat) (chk : Nat → Bool) :
    Nat → Nat → Nat → IndexSt → Option (Int × IndexSt)
  | 0, _, _, _ => none
  | fuel + 1, pred, curr, st =>
    if curr = EOC then some (-1, st)
    else
      let a := 3 * curr
      let ch := st.nodes.getD a 0
      let cid := st.nodes.getD (a + 1) 0
      let cnext := st.nodes.getD (a + 2) 0
      if ch = h ∧ chk cid = true then
        let st1 :=
          if pred = EOC then { st with table := st.table.set idx cnext }
          else { st with nodes := st.nodes.set (3 * pred + 2) cnext }
        some ((cid : Int),
          { st1 with
              bitmap := bitmapFree st1.bitmap curr,
              bloom := bloomRemove key st1.bloom })
      else if h > ch then some (-1, st)
      else delLoop key h idx chk fuel curr cnext st

/-- `Index.delete` (src/tinyfly.js:363-400): bloom short-circuit, then walk
the bucket chain. -/
def indexDelete (fuel : Nat) (key : List Nat) (chk : Nat → Bool) (st : IndexSt) :
    Option (Int × IndexSt) :=
  if bloomHas key st.bloom = false then some (-1, st)
  else
    let h := calcHash 199 key
    let idx := h % st.table.length
    delLoop key h idx chk fuel EOC (st.table.getD idx 0) st

/-- Combined state of the NoSql façade (src/tinyfly.js:403-465). -/
structure SysSt where
  index : IndexSt
  storage : StorageSt
  cache : CacheSt
deriving DecidableEq, Repr

/-- The `check` closure the façade passes to every index operation:
`(id) => this._storage.getKey(id) === key`. -/
def mkCheck (k : List Nat) (buf : List Nat) : Nat → Bool :=
  fun id => decide (getKeyPure buf id = some k)

/-- `NoSql.set` (src/tinyfly.js:423-435): assert the key, write through the
cache unconditionally, save to the heap, return false on a `-1` heap result
(a dead branch — see `storageSave`), otherwise insert into the index. -/
def noSqlSet (fuel : Nat) (k v : List Nat) (st : SysSt) : Option (JsRes Bool SysSt) :=
  if k = [] then some (.err "assert failed: key" st)
  else
    let st1 := { st with cache := cacheSet k v st.cache }
    match storageSave k v st1.storage with
    | .err e s2 => some (.err e { st1 with storage := s2 })
    | .ok id s2 =>
      let st2 := { st1 with storage := s2 }
      if id = -1 then some (.ok false st2)
      else
        match indexSet fuel id.toNat k (mkCheck k st2.storage.buf) st2.index with
        | none => none
        | some (b, ix) => some (.ok b { st2 with index := ix })

/-- `NoSql.delete` (src/tinyfly.js:451-463): assert the key, best-effort cache
removal, index delete recovering the record offset, then heap delete. -/
def noSqlDelete (fuel : Nat) (k : List Nat) (st : SysSt) : Option (JsRes Bool SysSt) :=
  if k = [] then some (.err "assert failed: key" st)
  else
    let st1 := { st with cache := cacheRemove k st.cache }
    match indexDelete fuel k (mkCheck k st1.storage.buf) st1.index with
    | none => none
    | some (r, ix) =>
      let st2 := { st1 with index := ix }
      if r = -1 then some (.ok false st2)
      else
        match storageDelete r.toNat st2.storage with
        | .ok b s => some (.ok b { st2 with storage := s })
        | .err e s => some (.err e { st2 with storage := s })

/-- Post-state of a façade trace step, for writing closed theorems about
concrete runs; the default is returned only for a fuel-exhausted step. -/
def stepState (r : Option (JsRes Bool SysSt)) (dflt : SysSt) : SysSt :=
  match r with
  | some (.ok _ s) => s
  | some (.err _ s) => s
  | none => dflt

/-- True iff a façade trace step returned normally with value `true`. -/
def stepOk (r : Option (JsRes Bool SysSt)) : Bool :=
  match r with
  | some (.ok b _) => b
  | _ => false

/-- Post-state of a stateful JS result, whether it returned or threw. -/
def jsState {α σ : Type} (r : JsRes α σ) : σ :=
  match r with
  | .ok _ s => s
  | .err _ s => s

/-- Post-state of an index operation (`initIdx 0 0 0 []` only on fuel
exhaustion, which never happens in the concrete traces below). -/
def idxStep {β : Type} (r : Option (β × IndexSt)) (d : IndexSt) : IndexSt :=
  match r with
  | some (_, s) => s
  | none => d

/-- `l` is the chain of slots starting at `start` (a slot id or `EOC`):
each element's stored next pointer `nodes[3*s+2]` leads to the rest, and the
chain terminates at `EOC`.  This is the "sequence of nodes along the chain
from the bucket head" of the spec's bucket-chain invariant. -/
inductive NodeChain (nodes : List Nat) : Nat → List Nat → Prop where
  | nil : NodeChain nodes EOC []
  | cons (s : Nat) (rest : List Nat) (hne : s ≠ EOC)
      (htail : NodeChain nodes (nodes.getD (3 * s + 2) 0) rest) :
      NodeChain nodes s (s :: rest)

/-- The hash values along a chain, as stored in the node triples. -/
def chainHashes (nodes : List Nat) (l : List Nat) : List Nat :=
  l.map fun s => nodes.getD (3 * s) 0

/-- A chain segment: the slots `l` linked from `start` whose last next
pointer is `stop` (for `l = []`, simply `start = stop`).  A full bucket chain
is a segment ending at `EOC`; the walk of `Index.set`/`Index.delete`
maintains a segment from the bucket head to the current cursor. -/
inductive ChainSeg (nodes : List Nat) : Nat → List Nat → Nat → Prop where
  | nil (stop : Nat) : ChainSeg nodes stop [] stop
  | cons (s : Nat) (rest : List Nat) (stop : Nat) (hne : s ≠ EOC)
      (htail : ChainSeg nodes (nodes.getD (3 * s + 2) 0) rest stop) :
      ChainSeg nodes s (s :: rest) stop

/-- The bucket-chain context of an index state with chain assignment `C`:
component lengths are fixed, bitmap bytes are in `Buffer` range, each
bucket's chain is exactly `C b`, its stored hash sequence is non-increasing,
its slots are in bitmap range and marked busy, and no slot occurs twice —
within one chain or across two chains. -/
structure IdxCtx (m t L : Nat) (st : IndexSt) (C : Nat → List Nat) : Prop where
  hbm : st.bitmap.length = m
  htb : st.table.length = t
  hnd : st.nodes.length = L
  hbytes : BytesLt st.bitmap
  hchain : ∀ b, b < t → NodeChain st.nodes (st.table.getD b 0) (C b)
  hsorted : ∀ b, b < t → List.Chain' (fun x y => x ≥ y) (chainHashes st.nodes (C b))
  hbusy : ∀ b, b < t → ∀ s ∈ C b, s < 8 * m ∧ bitGet st.bitmap s = true
  hnodup : ∀ b, b < t → (C b).Nodup
  hdisj : ∀ b b', b < t → b' < t → b ≠ b' → ∀ s, s ∈ C b → s ∉ C b'

/-- The inductive invariant of the reachable index states: some chain
assignment satisfies `IdxCtx`. -/
def InvIdx (m t L : Nat) (st : IndexSt) : Prop :=
  ∃ C : Nat → List Nat, IdxCtx m t L st C

/-- Index states reachable from `Index.clear` by sequences of `Index.set` and
`Index.delete` calls (with arbitrary non-empty keys, record ids and caller
check predicates, as the façade supplies them).  A step exists exactly when
the source's chain walk terminates (some fuel suffices). -/
inductive ReachableIdx (m b t : Nat) (nodes0 : List Nat) : IndexSt → Prop where
  | init : ReachableIdx m b t nodes0 (initIdx m b t nodes0)
  | set (st : IndexSt) (res : Bool) (st' : IndexSt) (fuel id : Nat) (key : List Nat)
      (chk : Nat → Bool) (hk : key ≠ []) (hr : ReachableIdx m b t nodes0 st)
      (hstep : indexSet fuel id key chk st = some (res, st')) :
      ReachableIdx m b t nodes0 st'
  | del (st : IndexSt) (res : Int) (st' : IndexSt) (fuel : Nat) (key : List Nat)
      (chk : Nat → Bool) (hk : key ≠ []) (hr : ReachableIdx m b t nodes0 st)
      (hstep : indexDelete fuel key chk st = some (res, st')) :
      ReachableIdx m b t nodes0 st'

/-- Every bucket chain exists, is finite, and its hash sequence is strictly
descending — the bucket-chain shape asserted by the spec. -/
def StrictChains (st : IndexSt) : Prop :=
  ∀ b < st.table.length, ∃ l, NodeChain st.nodes (st.table.getD b 0) l ∧
    List.Chain' (fun x y => x > y) (chainHashes st.nodes l)

/-- Concrete index used for the chain-order counterexample: one bitmap byte,
one bloom byte, a single bucket, 24 node words (so that every fetchable slot
has its triple in range). -/
def c5idx0 : IndexSt := initIdx 1 1 1 (List.replicate 24 0)

/-- `c5idx0` after inserting the key "ab" (codes `[97, 98]`) with record id 0. -/
def c5idx1 : IndexSt := idxStep (indexSet 5 0 [97, 98] (fun _ => false) c5idx0) c5idx0

/-- `c5idx1` after inserting the key "bC" (codes `[98, 67]`) with record id 1.
The two keys have the same 32-bit hash (31·97 + 98 = 31·98 + 67), so the
second insert walks past the first node and appends at the end. -/
def c5idx2 : IndexSt := idxStep (indexSet 5 1 [98, 67] (fun _ => false) c5idx1) c5idx0

/-- The byte buffer produced by `Storage.clear` on a 20-byte heap. -/
def heap20 : List Nat := [0, 0, 0, 0, 20] ++ List.replicate 15 0

/-- The byte buffer produced by `Storage.clear` on a 32-byte heap. -/
def heap32 : List Nat := [0, 0, 0, 0, 32] ++ List.replicate 27 0

/-- 20-byte heap after saving key `[107]` with value `[97, 0, 98]` (a value
containing an embedded null) into the cleared heap. -/
def c2st : StorageSt := jsState (storageSave [107] [97, 0, 98] ⟨heap20, 0⟩)

/-- Storage trace for the heap-walk claim: cleared 20-byte heap, save a
6-byte record, save a 4-byte record (consuming the residual exactly), then
delete the first record.  The walk over this state is exact. -/
def c6pre : StorageSt :=
  jsState (storageDelete 0
    (jsState (storageSave [98] [119, 119]
      (jsState (storageSave [97] [118, 118, 118, 118] ⟨heap20, 0⟩)))))

/-- `c6pre` after saving a 5-byte record into the freed 6-byte block: the
block is rewritten with size 5, but the single spare byte is not given a
residual FREE header (`other_size = -4`), so the header sequence no longer
tiles the heap. -/
def c6post : StorageSt := jsState (storageSave [99] [120, 120, 120] c6pre)

/-- Façade system for the error-path traces: single-bucket index with one
bitmap byte and one bloom byte, 20-byte heap, one cache slot. -/
def c7sys0 : SysSt :=
  ⟨initIdx 1 1 1 (List.replicate 24 0), ⟨heap20, 0⟩, ⟨[none], [none]⟩⟩

/-- `c7sys0` after attempting to set key `[107]` to a 19-byte value (the
21-byte record `key || 0x00 || value` fits no block of the 20-byte heap). -/
def c7sys1 : SysSt :=
  stepState (noSqlSet 5 [107] (List.replicate 19 118) c7sys0) c7sys0

/-- Façade system for the bloom false-negative trace: single-bucket index,
two bloom bytes, 32-byte heap, one cache slot. -/
def c9sys0 : SysSt :=
  ⟨initIdx 1 2 1 (List.replicate 24 0), ⟨heap32, 0⟩, ⟨[none], [none]⟩⟩

/-- `c9sys0` after `set("ab", "x")` (codes `[97, 98]` / `[120]`). -/
def c9sys1 : SysSt := stepState (noSqlSet 5 [97, 98] [120] c9sys0) c9sys0

/-- `c9sys1` after `set("bC", "y")` (codes `[98, 67]` / `[121]`); "bC" has
the same hash as "ab" under every seed. -/
def c9sys2 : SysSt := stepState (noSqlSet 5 [98, 67] [121] c9sys1) c9sys0

/-- `c9sys2` after `delete("ab")`. -/
def c9sys3 : SysSt := stepState (noSqlDelete 5 [97, 98] c9sys2) c9sys0

/-
================================  Theorems  ================================
-/

lemma getD_set_self {l : List Nat} {i : Nat} (a d : Nat) (h : i < l.length) :
    (l.set i a).getD i d = a := by
  simp [List.getD_eq_getElem?_getD, List.getElem?_set_self', h]

lemma getD_set_ne {l : List Nat} {i j : Nat} (a d : Nat) (h : i ≠ j) :
    (l.set i a).getD j d = l.getD j d := by
  simp [List.getD_eq_getElem?_getD, List.getElem?_set_ne h]

lemma testBit_of_lt_two_pow {b k : Nat} (h : b < 256) (hk : 8 ≤ k) : b.testBit k = false := by
  apply Nat.testBit_lt_two_pow
  calc b < 256 := h
    _ = 2 ^ 8 := by norm_num
    _ ≤ 2 ^ k := Nat.pow_le_pow_right (by norm_num) hk

lemma byteSetBit_lt (b o : Nat) : byteSetBit b o < 256 :=
  Nat.mod_lt _ (by norm_num)

lemma byteClearBit_lt {b : Nat} (o : Nat) (hb : b < 256) : byteClearBit b o < 256 :=
  lt_of_le_of_lt Nat.and_le_left hb

lemma testBit_byteSetBit {b o : Nat} (hb : b < 256) (ho : o < 8) (k : Nat) :
    (byteSetBit b o).testBit k = (b.testBit k || decide (k = o)) := by
  have h2 : (2 : Nat) ^ o < 256 := by
    calc (2:Nat) ^ o ≤ 2 ^ 7 := Nat.pow_le_pow_right (by norm_num) (by omega)
      _ < 256 := by norm_num
  have hor : b ||| 2 ^ o < 256 := by
    have : b ||| 2 ^ o < 2 ^ 8 := Nat.or_lt_two_pow (by omega) (by omega)
    simpa using this
  unfold byteSetBit
  rw [Nat.shiftLeft_eq, one_mul, Nat.mod_eq_of_lt hor, Nat.testBit_or]
  by_cases hko : k = o
  · subst hko; simp [Nat.testBit_two_pow_self]
  · simp [hko, Nat.testBit_two_pow_of_ne (Ne.symm hko)]

lemma testBit_byteClearBit {b o : Nat} (hb : b < 256) (ho : o < 8) (k : Nat) :
    (byteClearBit b o).testBit k = (b.testBit k && !decide (k = o)) := by
  have hmask : (255 - (1 <<< o)) = 255 ^^^ (2 ^ o) := by
    interval_cases o <;> decide
  unfold byteClearBit
  rw [hmask, Nat.testBit_and, Nat.testBit_xor]
  have h255 : (255 : Nat).testBit k = decide (k < 8) := by
    have h8 : (255 : Nat) = 2 ^ 8 - 1 := by norm_num
    rw [h8, Nat.testBit_two_pow_sub_one]
  rw [h255]
  by_cases hk8 : k < 8
  · by_cases hko : k = o
    · subst hko; simp [Nat.testBit_two_pow_self, hk8]
    · simp [hk8, hko, Nat.testBit_two_pow_of_ne (Ne.symm hko)]
  · have hb' : b.testBit k = false := testBit_of_lt_two_pow hb (by omega)
    have hko : k ≠ o := by omega
    simp [hk8, hb', hko, Nat.testBit_two_pow_of_ne (Ne.symm hko)]

lemma bitGet_cons (b : Nat) (rest : List Nat) (j : Nat) :
    bitGet (b :: rest) j = if j < 8 then b.testBit j else bitGet rest (j - 8) := by
  unfold bitGet
  by_cases h : j < 8
  · simp [h, Nat.div_eq_of_lt h, Nat.mod_eq_of_lt h]
  · have hd : j / 8 = (j - 8) / 8 + 1 := by omega
    have hm : j % 8 = (j - 8) % 8 := by omega
    simp [h, hd, hm]

lemma byteFirstFree_eq_none_iff {b : Nat} :
    byteFirstFree b = none ↔ ∀ k < 8, b.testBit k = true := by
  constructor
  · intro h k hk
    unfold byteFirstFree at h
    split_ifs at h with h0 h1 h2 h3 h4 h5 h6 h7
    interval_cases k <;> simp_all
  · intro h
    unfold byteFirstFree
    have h0 := h 0 (by omega)
    have h1 := h 1 (by omega)
    have h2 := h 2 (by omega)
    have h3 := h 3 (by omega)
    have h4 := h 4 (by omega)
    have h5 := h 5 (by omega)
    have h6 := h 6 (by omega)
    have h7 := h 7 (by omega)
    simp [h0, h1, h2, h3, h4, h5, h6, h7]

lemma byteFirstFree_some {b o : Nat} (h : byteFirstFree b = some o) :
    o < 8 ∧ b.testBit o = false ∧ ∀ k < o, b.testBit k = true := by
  unfold byteFirstFree at h
  split_ifs at h with h0 h1 h2 h3 h4 h5 h6 h7 <;>
    simp only [Option.some.injEq] at h <;>
    (try subst h) <;>
    refine ⟨by omega, by simp_all, ?_⟩ <;>
    (intro k hk; interval_cases k <;> simp_all)

lemma bitSetAt_cons_low {b : Nat} {rest : List Nat} {o : Nat} (ho : o < 8) :
    bitSetAt (b :: rest) o = byteSetBit b o :: rest := by
  simp [bitSetAt, Nat.div_eq_of_lt ho, Nat.mod_eq_of_lt ho]

lemma bitSetAt_cons_high (b : Nat) (rest : List Nat) (s : Nat) :
    bitSetAt (b :: rest) (s + 8) = b :: bitSetAt rest s := by
  have hd : (s + 8) / 8 = s / 8 + 1 := by omega
  have hm : (s + 8) % 8 = s % 8 := by omega
  simp [bitSetAt, hd, hm]

lemma bitmapFetch_some : ∀ {a : List Nat} {s : Nat} {a' : List Nat},
    bitmapFetch a = some (s, a') →
    s < 8 * a.length ∧ bitGet a s = false ∧ (∀ j < s, bitGet a j = true) ∧
    a' = bitSetAt a s := by
  intro a
  induction a with
  | nil => intro s a' h; simp [bitmapFetch] at h
  | cons b rest ih =>
    intro s a' h
    unfold bitmapFetch at h
    cases hbf : byteFirstFree b with
    | some o =>
      rw [hbf] at h
      simp only [Option.some.injEq, Prod.mk.injEq] at h
      obtain ⟨rfl, rfl⟩ := h
      obtain ⟨ho1, ho2, ho3⟩ := byteFirstFree_some hbf
      refine ⟨by simp; omega, ?_, ?_, (bitSetAt_cons_low ho1).symm⟩
      · rw [bitGet_cons]; simp [ho1, ho2]
      · intro j hj
        rw [bitGet_cons]
        have hj8 : j < 8 := by omega
        simp [hj8, ho3 j hj]
    | none =>
      rw [hbf] at h
      cases hrec : bitmapFetch rest with
      | none => rw [hrec] at h; simp at h
      | some pr =>
        obtain ⟨s0, r⟩ := pr
        rw [hrec] at h
        simp only [Option.some.injEq, Prod.mk.injEq] at h
        obtain ⟨rfl, rfl⟩ := h
        obtain ⟨ih1, ih2, ih3, ih4⟩ := ih hrec
        have hbyte := byteFirstFree_eq_none_iff.mp hbf
        refine ⟨by simp; omega, ?_, ?_, ?_⟩
        · rw [bitGet_cons]
          have hge : ¬ s0 + 8 < 8 := by omega
          simp [hge, ih2]
        · intro j hj
          rw [bitGet_cons]
          by_cases hj8 : j < 8
          · simp [hj8, hbyte j hj8]
          · simp [hj8]
            exact ih3 (j - 8) (by omega)
        · rw [ih4, bitSetAt_cons_high]

lemma bitmapFetch_eq_none_iff {a : List Nat} :
    bitmapFetch a = none ↔ ∀ j < 8 * a.length, bitGet a j = true := by
  induction a with
  | nil => simp [bitmapFetch]
  | cons b rest ih =>
    constructor
    · intro h j hj
      unfold bitmapFetch at h
      cases hbf : byteFirstFree b with
      | some o => rw [hbf] at h; simp at h
      | none =>
        rw [hbf] at h
        cases hrec : bitmapFetch rest with
        | some pr => rw [hrec] at h; obtain ⟨s0, r⟩ := pr; simp at h
        | none =>
          rw [bitGet_cons]
          by_cases hj8 : j < 8
          · simp [hj8, byteFirstFree_eq_none_iff.mp hbf j hj8]
          · simp only [hj8, if_false]
            exact ih.mp hrec (j - 8) (by simp at hj; omega)
    · intro h
      unfold bitmapFetch
      have hbf : byteFirstFree b = none := by
        rw [byteFirstFree_eq_none_iff]
        intro k hk
        have hb := h k (by simp; omega)
        rwa [bitGet_cons, if_pos hk] at hb
      rw [hbf]
      have hrec : bitmapFetch rest = none := by
        rw [ih]
        intro j hj
        have hb := h (j + 8) (by simp; omega)
        rw [bitGet_cons] at hb
        simpa using hb
      rw [hrec]

/-- C8 (confirmed): `BitMap.fetch` returns `-1` (modelled `none`) iff every
bit of the array is set; otherwise it returns the smallest free slot id (all
smaller slots are busy, the returned one was free) and the new array is the
old one with exactly that bit set.  The scan order — bytes in ascending base
order, bits 0..7 within each byte — is what makes the returned id
`8 * base + offset = (base << 3) | offset` the smallest free slot. -/
theorem bitmap_fetch_first_free_slot (a : List Nat) :
    (bitmapFetch a = none ↔ ∀ j < 8 * a.length, bitGet a j = true) ∧
    (∀ s a', bitmapFetch a = some (s, a') →
      s < 8 * a.length ∧ bitGet a s = false ∧ (∀ j < s, bitGet a j = true) ∧
      a' = bitSetAt a s ∧ a'.length = a.length) := by
  refine ⟨bitmapFetch_eq_none_iff, fun s a' h => ?_⟩
  obtain ⟨h1, h2, h3, h4⟩ := bitmapFetch_some h
  exact ⟨h1, h2, h3, h4, by rw [h4]; simp [bitSetAt]⟩

/-- Witness for C8 at the bitmap `[255, 3]`: the first free slot is 10
(byte 1, bit 2) and fetching sets exactly that bit. -/
theorem bitmap_fetch_first_free_slot_witness :
    10 < 8 * ([255, 3] : List Nat).length ∧ bitGet [255, 3] 10 = false ∧
    (∀ j < 10, bitGet [255, 3] j = true) ∧
    ([255, 7] : List Nat) = bitSetAt [255, 3] 10 ∧
    ([255, 7] : List Nat).length = ([255, 3] : List Nat).length :=
  (bitmap_fetch_first_free_slot [255, 3]).2 10 [255, 7] rfl

lemma bytesLt_of_forall_mem {a : List Nat} (h : ∀ x ∈ a, x < 256) : BytesLt a := by
  intro i
  by_cases hi : i < a.length
  · rw [List.getD_eq_getElem _ _ hi]
    exact h _ (List.getElem_mem hi)
  · rw [List.getD_eq_default _ _ (by omega)]
    norm_num

lemma length_bitSetAt (a : List Nat) (p : Nat) : (bitSetAt a p).length = a.length := by
  simp [bitSetAt]

lemma length_bitClearAt (a : List Nat) (p : Nat) : (bitClearAt a p).length = a.length := by
  simp [bitClearAt]

lemma bytesLt_bitSetAt {a : List Nat} (p : Nat) (ha : BytesLt a) : BytesLt (bitSetAt a p) := by
  intro i
  unfold bitSetAt
  by_cases h : p / 8 = i
  · subst h
    by_cases hlen : p / 8 < a.length
    · rw [getD_set_self _ _ hlen]; exact byteSetBit_lt _ _
    · rw [List.set_eq_of_length_le (by omega)]; exact ha _
  · rw [getD_set_ne _ _ h]; exact ha i

lemma bytesLt_bitClearAt {a : List Nat} (p : Nat) (ha : BytesLt a) : BytesLt (bitClearAt a p) := by
  intro i
  unfold bitClearAt
  by_cases h : p / 8 = i
  · subst h
    by_cases hlen : p / 8 < a.length
    · rw [getD_set_self _ _ hlen]; exact byteClearBit_lt _ (ha _)
    · rw [List.set_eq_of_length_le (by omega)]; exact ha _
  · rw [getD_set_ne _ _ h]; exact ha i

lemma bitGet_bitSetAt {a : List Nat} {p : Nat} (ha : BytesLt a) (hp : p / 8 < a.length)
    (j : Nat) : bitGet (bitSetAt a p) j = (bitGet a j || decide (j = p)) := by
  unfold bitGet bitSetAt
  by_cases hb : j / 8 = p / 8
  · rw [hb, getD_set_self _ _ hp,
      testBit_byteSetBit (ha _) (Nat.mod_lt _ (by norm_num)) _]
    have hiff : j % 8 = p % 8 ↔ j = p := by omega
    simp [hiff]
  · rw [getD_set_ne _ _ (fun he => hb he.symm)]
    have hne : j ≠ p := by omega
    simp [hne]

lemma bitGet_bitClearAt {a : List Nat} {p : Nat} (ha : BytesLt a) (hp : p / 8 < a.length)
    (j : Nat) : bitGet (bitClearAt a p) j = (bitGet a j && !decide (j = p)) := by
  unfold bitGet bitClearAt
  by_cases hb : j / 8 = p / 8
  · rw [hb, getD_set_self _ _ hp,
      testBit_byteClearBit (ha _) (Nat.mod_lt _ (by norm_num)) _]
    have hiff : j % 8 = p % 8 ↔ j = p := by omega
    simp [hiff]
  · rw [getD_set_ne _ _ (fun he => hb he.symm)]
    have hne : j ≠ p := by omega
    simp [hne]

lemma bitGet_foldl_bitSetAt (ps : List Nat) : ∀ (a : List Nat), BytesLt a →
    (∀ p ∈ ps, p / 8 < a.length) → ∀ j,
    bitGet (ps.foldl bitSetAt a) j = (bitGet a j || decide (j ∈ ps)) := by
  induction ps with
  | nil => intro a _ _ j; simp
  | cons p ps ih =>
    intro a ha hps j
    simp only [List.foldl_cons]
    rw [ih (bitSetAt a p) (bytesLt_bitSetAt p ha)
      (by intro q hq; rw [length_bitSetAt]; exact hps q (List.mem_cons_of_mem _ hq)) j]
    rw [bitGet_bitSetAt ha (hps p (List.mem_cons_self p ps)) j]
    simp [List.mem_cons, Bool.or_assoc]

lemma bitGet_foldl_bitClearAt (ps : List Nat) : ∀ (a : List Nat), BytesLt a →
    (∀ p ∈ ps, p / 8 < a.length) → ∀ j,
    bitGet (ps.foldl bitClearAt a) j = (bitGet a j && !decide (j ∈ ps)) := by
  induction ps with
  | nil => intro a _ _ j; simp
  | cons p ps ih =>
    intro a ha hps j
    simp only [List.foldl_cons]
    rw [ih (bitClearAt a p) (bytesLt_bitClearAt p ha)
      (by intro q hq; rw [length_bitClearAt]; exact hps q (List.mem_cons_of_mem _ hq)) j]
    rw [bitGet_bitClearAt ha (hps p (List.mem_cons_self p ps)) j]
    simp [List.mem_cons, Bool.and_assoc, not_or]

lemma bloomPositions_div_lt {buf key : List Nat} (hlen : 0 < buf.length) :
    ∀ p ∈ bloomPositions buf.length key, p / 8 < buf.length := by
  intro p hp
  simp only [bloomPositions, List.mem_map] at hp
  obtain ⟨sd, _, rfl⟩ := hp
  have := Nat.mod_lt (calcHash sd key) hlen
  omega

theorem bloom_ops_bit_semantics (buf key : List Nat) (hb : BytesLt buf) (hlen : 0 < buf.length) :
    (∀ j, bitGet (bloomAdd key buf) j =
      (bitGet buf j || decide (j ∈ bloomPositions buf.length key))) ∧
    (bloomHas key buf = true ↔ ∀ p ∈ bloomPositions buf.length key, bitGet buf p = true) ∧
    (∀ j, bitGet (bloomRemove key buf) j =
      (bitGet buf j && !decide (j ∈ bloomPositions buf.length key))) := by
  refine ⟨?_, ?_, ?_⟩
  · intro j
    exact bitGet_foldl_bitSetAt _ buf hb (bloomPositions_div_lt hlen) j
  · simp [bloomHas, List.all_eq_true, bitGet]
  · intro j
    exact bitGet_foldl_bitClearAt _ buf hb (bloomPositions_div_lt hlen) j

theorem bloom_ops_bit_semantics_witness :
    (bitGet (bloomAdd [97] [4, 0]) 0 =
      (bitGet [4, 0] 0 || decide ((0 : Nat) ∈ bloomPositions 2 [97]))) ∧
    (bitGet (bloomRemove [97] [4, 0]) 2 =
      (bitGet [4, 0] 2 && !decide ((2 : Nat) ∈ bloomPositions 2 [97]))) :=
  ⟨(bloom_ops_bit_semantics [4, 0] [97] (bytesLt_of_forall_mem (by decide)) (by decide)).1 0,
   (bloom_ops_bit_semantics [4, 0] [97] (bytesLt_of_forall_mem (by decide)) (by decide)).2.2 2⟩

lemma listSlice_eq_of_getD {b c : List Nat} {a e : Nat} (hlen : b.length = c.length)
    (h : ∀ j, a ≤ j → j < e → b.getD j 0 = c.getD j 0) : listSlice b a e = listSlice c a e := by
  apply List.ext_getElem?
  intro i
  simp only [listSlice, List.getElem?_drop, List.getElem?_take]
  by_cases he : a + i < e
  · rw [if_pos he, if_pos he]
    by_cases hb : a + i < b.length
    · have hc : a + i < c.length := hlen ▸ hb
      rw [List.getElem?_eq_getElem hb, List.getElem?_eq_getElem hc]
      have hd := h (a + i) (by omega) he
      rw [List.getD_eq_getElem _ _ hb, List.getD_eq_getElem _ _ hc] at hd
      rw [hd]
    · rw [List.getElem?_eq_none (by omega), List.getElem?_eq_none (by omega)]
  · rw [if_neg he, if_neg he]

lemma bufCopy_getD {src tgt : List Nat} {t : Nat} (ht : t + src.length ≤ tgt.length) (j : Nat) :
    (bufCopy src tgt t).getD j 0 =
      if t ≤ j ∧ j < t + src.length then src.getD (j - t) 0 else tgt.getD j 0 := by
  unfold bufCopy
  rw [List.take_of_length_le (l := src) (by omega)]
  have hA : (tgt.take t).length = t := by simp; omega
  rw [List.getD_eq_getElem?_getD, List.getElem?_append, List.length_append, hA]
  by_cases h1 : j < t
  · rw [if_neg (show ¬(t ≤ j ∧ j < t + src.length) by omega),
      if_pos (show j < t + src.length by omega),
      List.getElem?_append, hA, if_pos h1, List.getElem?_take, if_pos h1,
      ← List.getD_eq_getElem?_getD]
  · by_cases h2 : j < t + src.length
    · rw [if_pos (show t ≤ j ∧ j < t + src.length from ⟨by omega, h2⟩),
        if_pos (show j < t + src.length by omega),
        List.getElem?_append, hA, if_neg (show ¬ j < t by omega),
        ← List.getD_eq_getElem?_getD]
    · rw [if_neg (show ¬(t ≤ j ∧ j < t + src.length) by omega),
        if_neg (show ¬ j < t + src.length by omega),
        List.getElem?_drop, show t + src.length + (j - (t + src.length)) = j by omega,
        ← List.getD_eq_getElem?_getD]

lemma bufCopy_length {src tgt : List Nat} {t : Nat} (ht : t ≤ tgt.length) :
    (bufCopy src tgt t).length = tgt.length := by
  unfold bufCopy
  simp only [List.length_append, List.length_take, List.length_drop]
  omega

lemma bufCopy_getD_lt {src tgt : List Nat} {t j : Nat} (ht : t ≤ tgt.length) (hj : j < t) :
    (bufCopy src tgt t).getD j 0 = tgt.getD j 0 := by
  unfold bufCopy
  have hA : (tgt.take t).length = t := by simp; omega
  rw [List.getD_eq_getElem?_getD, List.getElem?_append, List.length_append, hA,
    if_pos (by omega), List.getElem?_append, hA, if_pos hj,
    List.getElem?_take, if_pos hj, ← List.getD_eq_getElem?_getD]

lemma bufCopy_slice {src tgt : List Nat} {t : Nat} (ht : t + src.length ≤ tgt.length) :
    listSlice (bufCopy src tgt t) t (t + src.length) = src := by
  apply List.ext_getElem?
  intro i
  simp only [listSlice, List.getElem?_drop, List.getElem?_take]
  by_cases hi : i < src.length
  · rw [if_pos (by omega)]
    have hlt : t + i < (bufCopy src tgt t).length := by rw [bufCopy_length (show t ≤ tgt.length by omega)]; omega
    rw [List.getElem?_eq_getElem hlt, List.getElem?_eq_getElem hi]
    have hd := bufCopy_getD ht (t + i)
    rw [if_pos ⟨by omega, by omega⟩] at hd
    rw [List.getD_eq_getElem _ _ hlt] at hd
    have hsub : t + i - t = i := by omega
    rw [hsub, List.getD_eq_getElem _ _ hi] at hd
    rw [hd]
  · rw [if_neg (by omega), List.getElem?_eq_none (by omega)]

lemma writeU8?_eq_some {buf : List Nat} {v off : Nat} {b2 : List Nat}
    (h : writeU8? buf v off = some b2) :
    off < buf.length ∧ v < 256 ∧ b2 = buf.set off v := by
  unfold writeU8? at h
  split_ifs at h with hc
  · simp only [Option.some.injEq] at h
    exact ⟨hc.1, hc.2, h.symm⟩

lemma writeI32BE?_eq_some {buf : List Nat} {v off : Nat} {b2 : List Nat}
    (h : writeI32BE? buf v off = some b2) :
    off + 4 ≤ buf.length ∧ v < 2147483648 ∧ b2.length = buf.length ∧
    readU32BE? b2 off = some v ∧
    (∀ j, j < off ∨ off + 4 ≤ j → b2.getD j 0 = buf.getD j 0) := by
  unfold writeI32BE? at h
  split_ifs at h with hc
  · obtain ⟨h1, h2⟩ := hc
    simp only [Option.some.injEq] at h
    subst h
    refine ⟨h1, h2, by simp, ?_, ?_⟩
    · unfold readU32BE?
      rw [if_pos (by (try simp only [List.length_set]); omega)]
      have g3 : ((((buf.set off (v / 16777216 % 256)).set (off + 1) (v / 65536 % 256)).set
          (off + 2) (v / 256 % 256)).set (off + 3) (v % 256)).getD (off + 3) 0 = v % 256 := by
        rw [getD_set_self _ _ (by (try simp only [List.length_set]); omega)]
      have g2 : ((((buf.set off (v / 16777216 % 256)).set (off + 1) (v / 65536 % 256)).set
          (off + 2) (v / 256 % 256)).set (off + 3) (v % 256)).getD (off + 2) 0 = v / 256 % 256 := by
        rw [getD_set_ne _ _ (by omega), getD_set_self _ _ (by (try simp only [List.length_set]); omega)]
      have g1 : ((((buf.set off (v / 16777216 % 256)).set (off + 1) (v / 65536 % 256)).set
          (off + 2) (v / 256 % 256)).set (off + 3) (v % 256)).getD (off + 1) 0 = v / 65536 % 256 := by
        rw [getD_set_ne _ _ (by omega), getD_set_ne _ _ (by omega),
          getD_set_self _ _ (by (try simp only [List.length_set]); omega)]
      have g0 : ((((buf.set off (v / 16777216 % 256)).set (off + 1) (v / 65536 % 256)).set
          (off + 2) (v / 256 % 256)).set (off + 3) (v % 256)).getD off 0 = v / 16777216 % 256 := by
        rw [getD_set_ne _ _ (by omega), getD_set_ne _ _ (by omega), getD_set_ne _ _ (by omega),
          getD_set_self _ _ (by (try simp only [List.length_set]); omega)]
      rw [g0, g1, g2, g3]
      congr 1
      omega
    · intro j hj
      rw [getD_set_ne _ _ (by omega), getD_set_ne _ _ (by omega), getD_set_ne _ _ (by omega),
        getD_set_ne _ _ (by omega)]

lemma readU32BE?_congr {b c : List Nat} {off : Nat} (hlen : b.length = c.length)
    (h : ∀ j, off ≤ j → j < off + 4 → b.getD j 0 = c.getD j 0) :
    readU32BE? b off = readU32BE? c off := by
  unfold readU32BE?
  rw [hlen]
  by_cases hb : off + 4 ≤ c.length
  · rw [if_pos hb, if_pos hb]
    rw [h off (by omega) (by omega), h (off + 1) (by omega) (by omega),
      h (off + 2) (by omega) (by omega), h (off + 3) (by omega) (by omega)]
  · rw [if_neg hb, if_neg hb]

lemma saveLoop_ok : ∀ (fuel : Nat) {off0 off : Nat} {data buf b' : List Nat},
    saveLoop data buf fuel off0 = .ok off b' →
    b'.length = buf.length ∧ off + 5 ≤ buf.length ∧ b'.getD off 0 = 1 ∧
    readU32BE? b' (off + 1) = some data.length ∧
    (off + 5 + data.length ≤ buf.length →
      listSlice b' (off + 5) (off + 5 + data.length) = data) := by
  intro fuel
  induction fuel with
  | zero =>
    intro off0 off data buf b' h
    simp [saveLoop] at h
  | succ fuel ih =>
    intro off0 off data buf b' h
    rw [saveLoop] at h
    split at h <;> try simp at h
    next hoff =>
    split at h <;> try simp at h
    next hflag =>
    split at h <;> try simp at h
    next size hread =>
    split at h <;> try simp at h
    next hsz =>
    split at h
    case isFalse hfit => exact ih h
    case isTrue hfit =>
    split at h <;> try simp at h
    next b1 hw1 =>
    split at h <;> try simp at h
    next b2 hw2 =>
    obtain ⟨hb1a, _, hb1⟩ := writeU8?_eq_some hw1
    obtain ⟨hb2a, hb2b, hb2len, hb2read, hb2frame⟩ := writeI32BE?_eq_some hw2
    have hb1len : b1.length = buf.length := by rw [hb1]; simp
    have hbound : off0 + 5 ≤ buf.length := by omega
    have hb3len : (bufCopy data b2 (off0 + 5)).length = buf.length := by
      rw [bufCopy_length (by omega)]; omega
    have hb3flag : (bufCopy data b2 (off0 + 5)).getD off0 0 = 1 := by
      rw [bufCopy_getD_lt (by omega) (by omega), hb2frame off0 (by omega), hb1,
        getD_set_self _ _ (by omega)]
    have hb3read : readU32BE? (bufCopy data b2 (off0 + 5)) (off0 + 1) = some data.length := by
      rw [readU32BE?_congr (c := b2) (by omega) ?_, hb2read]
      intro j hj1 hj2
      exact bufCopy_getD_lt (by omega) (by omega)
    have hb3slice : off0 + 5 + data.length ≤ buf.length →
        listSlice (bufCopy data b2 (off0 + 5)) (off0 + 5) (off0 + 5 + data.length) = data := by
      intro hns
      exact bufCopy_slice (by omega)
    split at h
    case isTrue hres =>
      split at h <;> try simp at h
      next b4 hw3 =>
      split at h <;> try simp at h
      next b5 hw4 =>
      obtain ⟨hoff', hb'⟩ := h
      subst hoff'
      subst hb'
      obtain ⟨hw3a, _, hw3b⟩ := writeU8?_eq_some hw3
      obtain ⟨hw4a, _, hw4len, _, hw4frame⟩ := writeI32BE?_eq_some hw4
      have hb4len : b4.length = buf.length := by rw [hw3b]; simp; omega
      refine ⟨by omega, hbound, ?_, ?_, ?_⟩
      · rw [hw4frame off0 (by omega), hw3b, getD_set_ne _ _ (by omega), hb3flag]
      · rw [readU32BE?_congr (c := bufCopy data b2 (off0 + 5)) (by omega) ?_, hb3read]
        intro j hj1 hj2
        rw [hw4frame j (by omega), hw3b, getD_set_ne _ _ (by omega)]
      · intro hns
        have heq : listSlice b5 (off0 + 5) (off0 + 5 + data.length) =
            listSlice (bufCopy data b2 (off0 + 5)) (off0 + 5) (off0 + 5 + data.length) := by
          apply listSlice_eq_of_getD (by omega)
          intro j hj1 hj2
          rw [hw4frame j (by omega), hw3b, getD_set_ne _ _ (by omega)]
        rw [heq]
        exact hb3slice hns
    case isFalse hres =>
      simp only [JsRes.ok.injEq] at h
      obtain ⟨hoff', hb'⟩ := h
      subst hoff'
      subst hb'
      exact ⟨hb3len, hbound, hb3flag, hb3read, hb3slice⟩

lemma splitNull_append_left {k : List Nat} (hk : 0 ∉ k) (t : List Nat) :
    splitNull (k ++ 0 :: t) = k :: splitNull t := by
  induction k with
  | nil => simp [splitNull]
  | cons c k' ih =>
    have hc : c ≠ 0 := fun h => hk (by simp [h])
    have hk' : 0 ∉ k' := fun h => hk (List.mem_cons_of_mem _ h)
    simp [splitNull, hc, ih hk']

lemma splitNull_get1 {k v1 v2 : List Nat} (hk : 0 ∉ k) (hv1 : 0 ∉ v1) :
    (splitNull (k ++ 0 :: (v1 ++ 0 :: v2))).get? 1 = some v1 := by
  rw [splitNull_append_left hk, splitNull_append_left hv1]
  rfl

/-- C2 amended (the counterexample `getValue_truncates_value_at_embedded_null`
forces the correction): after a successful save of a non-empty null-free key
with value `v1 ++ 0x00 :: v2` (`v1` null-free), `getValue` of the returned
offset yields only `v1` — the segment of the stored payload between its first
and second 0x00 — not the full value: `split('\0')` splits at every null and
the code returns element 1. -/
theorem getValue_after_save_returns_value_before_first_null
    (k v1 v2 : List Nat) (st : StorageSt) (o : Nat) (st' : StorageSt)
    (hk : k ≠ []) (hk0 : 0 ∉ k) (hv1 : 0 ∉ v1)
    (hsave : storageSave k (v1 ++ 0 :: v2) st = .ok (o : Int) st')
    (hfits : o + 5 + (k.length + 1 + (v1.length + 1 + v2.length)) ≤ st.buf.length) :
    storageGetValue o st' = .ok (some v1) st' := by
  unfold storageSave at hsave
  dsimp only at hsave
  split at hsave <;> try simp at hsave
  next off1 b hloop =>
  obtain ⟨hoo, hst⟩ := hsave
  subst hoo
  subst hst
  obtain ⟨hlen, hb5, hflag, hread, hslice⟩ := saveLoop_ok _ hloop
  have hdlen : (k ++ 0 :: (v1 ++ 0 :: v2)).length = k.length + 1 + (v1.length + 1 + v2.length) := by
    simp
    omega
  unfold storageGetValue
  rw [if_pos (show off1 < (StorageSt.mk b off1).buf.length by simp at hlen ⊢; omega)]
  have hfl : (StorageSt.mk b off1).buf.getD off1 0 = 1 := hflag
  rw [hfl]
  rw [if_neg (by norm_num)]
  have hrd : readU32BE? (StorageSt.mk b off1).buf (off1 + 1) =
      some (k ++ 0 :: (v1 ++ 0 :: v2)).length := hread
  rw [hrd]
  dsimp only
  have hsl : listSlice b (off1 + 5) (off1 + 5 + (k ++ 0 :: (v1 ++ 0 :: v2)).length) =
      k ++ 0 :: (v1 ++ 0 :: v2) := hslice (by rw [hdlen]; omega)
  rw [hsl]
  rw [splitNull_get1 hk0 hv1]

/-- Witness for the amended C2 at key `[107]`, value `[97, 0, 98]` on a
cleared 20-byte heap. -/
theorem getValue_after_save_value_witness :
    ([107] : List Nat) ≠ [] ∧ (0 : Nat) ∉ ([107] : List Nat) ∧ (0 : Nat) ∉ ([97] : List Nat) ∧
    storageGetValue 0 c2st = .ok (some [97]) c2st := by
  refine ⟨by decide, by decide, by decide, ?_⟩
  exact getValue_after_save_returns_value_before_first_null [107] [97] [98] ⟨heap20, 0⟩ 0 c2st
    (by decide) (by decide) (by decide) rfl (by decide)

lemma saveLoop_fit {data buf : List Nat} {off size fuel : Nat}
    (hoff : off < buf.length) (hfree : buf.getD off 0 = 0)
    (hread : readU32BE? buf (off + 1) = some size) (hsz : 0 < size)
    (hdata : data.length ≤ size) (h31 : data.length < 2147483648)
    (hs31 : size < 2147483648) (hblock : off + 5 + size ≤ buf.length) :
    ∃ b', saveLoop data buf (fuel + 1) off = .ok off b' := by
  have hb5 : off + 5 ≤ buf.length := by omega
  rw [saveLoop]
  rw [if_pos hoff, if_pos (Or.inl hfree), hread]
  dsimp only
  rw [if_pos hsz, if_pos ⟨hfree, hdata⟩]
  have hw1 : writeU8? buf 1 off = some (buf.set off 1) := by
    unfold writeU8?
    rw [if_pos ⟨hoff, by norm_num⟩]
  rw [hw1]
  dsimp only
  have hw2 : ∃ b2, writeI32BE? (buf.set off 1) data.length (off + 1) = some b2 := by
    unfold writeI32BE?
    rw [if_pos ⟨by simp; omega, h31⟩]
    exact ⟨_, rfl⟩
  obtain ⟨b2, hw2⟩ := hw2
  rw [hw2]
  dsimp only
  have hb2len : b2.length = buf.length := ((writeI32BE?_eq_some hw2).2.2.1).trans (by simp)
  by_cases hres : 5 + data.length < size
  · rw [if_pos hres]
    have hb3len : (bufCopy data b2 (off + 5)).length = buf.length := by
      rw [bufCopy_length (by omega)]; omega
    have hw3 : writeU8? (bufCopy data b2 (off + 5)) 0 (off + 5 + data.length)
        = some ((bufCopy data b2 (off + 5)).set (off + 5 + data.length) 0) := by
      unfold writeU8?
      rw [if_pos ⟨by omega, by norm_num⟩]
    rw [hw3]
    dsimp only
    have hw4 : ∃ b5, writeI32BE? ((bufCopy data b2 (off + 5)).set (off + 5 + data.length) 0)
        (size - data.length - 5) (off + 5 + data.length + 1) = some b5 := by
      unfold writeI32BE?
      rw [if_pos ⟨by simp; omega, by omega⟩]
      exact ⟨_, rfl⟩
    obtain ⟨b5, hw4⟩ := hw4
    rw [hw4]
    exact ⟨b5, rfl⟩
  · rw [if_neg hres]
    exact ⟨_, rfl⟩

/-- C10 (confirmed): a successful `Storage.delete(offset)` of a BUSY block
returns true, rewrites only the flag byte at `offset` to FREE (length word
and payload untouched, length preserved) and moves `_lastOffset` to that
offset; consequently the immediately following `Storage.save` starts its scan
at the just-freed block, and when the data fits there it is placed at exactly
that offset (first probe, first fit). -/
theorem storage_delete_cursor_flag_and_next_save (st : StorageSt) (off size : Nat)
    (k v : List Nat)
    (hoff : off < st.buf.length)
    (hbusy : st.buf.getD off 0 ≠ 0)
    (hread : readU32BE? st.buf (off + 1) = some size)
    (hsz : 0 < size)
    (hs31 : size < 2147483648)
    (hblock : off + 5 + size ≤ st.buf.length)
    (hdata : k.length + 1 + v.length ≤ size) :
    storageDelete off st = .ok true ⟨st.buf.set off 0, off⟩ ∧
    (st.buf.set off 0).getD off 0 = 0 ∧
    (∀ j, j ≠ off → (st.buf.set off 0).getD j 0 = st.buf.getD j 0) ∧
    (st.buf.set off 0).length = st.buf.length ∧
    (∃ b2, storageSave k v ⟨st.buf.set off 0, off⟩ = .ok (off : Int) ⟨b2, off⟩) := by
  refine ⟨?_, getD_set_self _ _ hoff, ?_, by simp, ?_⟩
  · unfold storageDelete
    rw [if_pos hoff, if_neg hbusy]
  · intro j hj
    exact getD_set_ne _ _ (fun he => hj he.symm)
  · unfold storageSave
    dsimp only
    have hread' : readU32BE? (st.buf.set off 0) (off + 1) = some size := by
      rw [readU32BE?_congr (c := st.buf) (by simp) ?_]
      · exact hread
      · intro j hj1 hj2
        exact getD_set_ne _ _ (by omega)
    have hdlen : (k ++ 0 :: v).length = k.length + 1 + v.length := by simp; omega
    obtain ⟨b2, hloop⟩ := @saveLoop_fit (k ++ 0 :: v) (st.buf.set off 0) off size
      ((st.buf.set off 0).length)
      (show off < (st.buf.set off 0).length by simp; omega)
      (getD_set_self _ _ hoff) hread' hsz (by rw [hdlen]; omega) (by rw [hdlen]; omega)
      hs31 (by simp; omega)
    rw [hloop]
    dsimp only
    rw [if_neg (by omega)]
    exact ⟨b2, rfl⟩

/-- Witness for C10: an 11-byte heap holding one BUSY block of size 6;
delete at 0 frees only the flag byte, and the next save of the 3-byte record
`[97] || 0 || [98]` lands at offset 0. -/
theorem storage_delete_cursor_witness :
    storageDelete 0 ⟨[1, 0, 0, 0, 6, 97, 0, 98, 99, 100, 101], 0⟩
      = .ok true ⟨[0, 0, 0, 0, 6, 97, 0, 98, 99, 100, 101], 0⟩ ∧
    ([0, 0, 0, 0, 6, 97, 0, 98, 99, 100, 101] : List Nat).getD 0 0 = 0 ∧
    (∃ b2, storageSave [97] [98] ⟨[0, 0, 0, 0, 6, 97, 0, 98, 99, 100, 101], 0⟩
      = .ok (0 : Int) ⟨b2, 0⟩) := by
  have h := storage_delete_cursor_flag_and_next_save
    ⟨[1, 0, 0, 0, 6, 97, 0, 98, 99, 100, 101], 0⟩ 0 6 [97] [98]
    (by decide) (by decide) (by decide) (by decide) (by decide) (by decide) (by decide)
  exact ⟨h.1, h.2.1, h.2.2.2.2⟩

lemma nodeChain_to_chainSeg {nodes : List Nat} {start : Nat} {l : List Nat}
    (h : NodeChain nodes start l) : ChainSeg nodes start l EOC := by
  induction h with
  | nil => exact .nil EOC
  | cons s rest hne htail ih => exact .cons s rest EOC hne ih

lemma chainSeg_to_nodeChain {nodes : List Nat} {start : Nat} {l : List Nat}
    (h : ChainSeg nodes start l EOC) : NodeChain nodes start l := by
  generalize heoc : EOC = stop at h
  induction h with
  | nil stop => rw [← heoc]; exact .nil
  | cons s rest stop hne htail ih => exact .cons s rest hne (ih heoc)

lemma nodeChain_eoc {nodes : List Nat} {l : List Nat}
    (h : NodeChain nodes EOC l) : l = [] := by
  cases h with
  | nil => rfl
  | cons s rest hne htail => exact absurd rfl hne

lemma nodeChain_cons_inv {nodes : List Nat} {curr : Nat} {l : List Nat}
    (h : NodeChain nodes curr l) (hne : curr ≠ EOC) :
    ∃ l', l = curr :: l' ∧ NodeChain nodes (nodes.getD (3 * curr + 2) 0) l' := by
  cases h with
  | nil => exact absurd rfl hne
  | cons s rest hne2 htail => exact ⟨rest, rfl, htail⟩

lemma nodeChain_congr {nodes nodes' : List Nat} {start : Nat} {l : List Nat}
    (h : NodeChain nodes start l)
    (hsame : ∀ s ∈ l, nodes'.getD (3 * s + 2) 0 = nodes.getD (3 * s + 2) 0) :
    NodeChain nodes' start l := by
  induction h with
  | nil => exact .nil
  | cons s rest hne htail ih =>
    refine .cons s rest hne ?_
    rw [hsame s (List.mem_cons_self s rest)]
    exact ih fun x hx => hsame x (List.mem_cons_of_mem _ hx)

lemma chainSeg_append_nodeChain {nodes : List Nat} {start stop : Nat} {l₁ l₂ : List Nat}
    (h1 : ChainSeg nodes start l₁ stop) (h2 : NodeChain nodes stop l₂) :
    NodeChain nodes start (l₁ ++ l₂) := by
  induction h1 with
  | nil => exact h2
  | cons s rest stop hne htail ih => exact .cons s _ hne (ih h2)

lemma chainSeg_snoc {nodes : List Nat} {start curr nxt : Nat} {l : List Nat}
    (h : ChainSeg nodes start l curr) (hne : curr ≠ EOC)
    (hnxt : nodes.getD (3 * curr + 2) 0 = nxt) :
    ChainSeg nodes start (l ++ [curr]) nxt := by
  induction h with
  | nil stop => exact .cons _ _ _ hne (hnxt ▸ .nil _)
  | cons s rest stop hne2 htail ih => exact .cons s _ _ hne2 (ih hne hnxt)

lemma chainSeg_retarget {nodes nodes' : List Nat} {start curr newstop : Nat}
    {l : List Nat} {p : Nat}
    (h : ChainSeg nodes start (l ++ [p]) curr)
    (hsame : ∀ s ∈ l, nodes'.getD (3 * s + 2) 0 = nodes.getD (3 * s + 2) 0)
    (hp : nodes'.getD (3 * p + 2) 0 = newstop) :
    ChainSeg nodes' start (l ++ [p]) newstop := by
  induction l generalizing start with
  | nil =>
    cases h with
    | cons s rest stop hne htail =>
      cases htail with
      | nil => exact .cons _ _ _ hne (hp ▸ .nil _)
  | cons x l' ih =>
    cases h with
    | cons s rest stop hne htail =>
      refine .cons _ _ _ hne ?_
      rw [hsame x (List.mem_cons_self x l')]
      exact ih htail fun y hy => hsame y (List.mem_cons_of_mem _ hy)

lemma chainSeg_mem_ne_eoc {nodes : List Nat} {start stop : Nat} {l : List Nat}
    (h : ChainSeg nodes start l stop) : ∀ s ∈ l, s ≠ EOC := by
  induction h with
  | nil => intro s hs; simp at hs
  | cons s rest stop hne htail ih =>
    intro x hx
    rcases List.mem_cons.mp hx with rfl | hx'
    · exact hne
    · exact ih x hx'

/-- C1 (code bug): when the slot bitmap is exhausted, `Index.set` does not
return false — it ignores the `-1` from `bitmap.fetch`, returns **true** and
mutates the bloom filter; when the new hash belongs in front of an existing
node it even clobbers the bucket head with `ToUint32(-1) = EOC`, orphaning
the chain.  First scenario: full one-byte bitmap `[255]`, empty bucket —
`set` returns true and the bloom byte changes from `[0]` to `[1]`.  Second
scenario: full bitmap, bucket head at slot 0 with stored hash 5, inserted key
`"a"` with hash 6266 > 5 — `set` returns true, the bucket head `[0]` is
overwritten to `[EOC]`, and the bloom is mutated. -/
theorem index_set_on_full_bitmap_misbehaves :
    indexSet 5 0 [97] (fun _ => false) ⟨[255], [0], [EOC], List.replicate 24 0⟩
      = some (true, ⟨[255], [1], [EOC], List.replicate 24 0⟩) ∧
    indexSet 5 7 [97] (fun _ => false) ⟨[255], [0], [0], 5 :: 0 :: EOC :: List.replicate 21 0⟩
      = some (true, ⟨[255], [1], [EOC], 5 :: 0 :: EOC :: List.replicate 21 0⟩) ∧
    ([1] : List Nat) ≠ [0] ∧ ([EOC] : List Nat) ≠ [0] := by
  exact ⟨rfl, rfl, by decide, by decide⟩

/-- C2 (counterexample): saving key `[107]` with value `[97, 0, 98]` — a
value containing an embedded 0x00 — into a cleared 20-byte heap succeeds at
offset 0, but `getValue` then returns only `[97]`, the bytes of the value
before its first null, not the full value: `String.split('\0')` splits at
every null and element 1 is the segment between the first and second null. -/
theorem getValue_truncates_value_at_embedded_null :
    storageClear (List.replicate 20 0) = some heap20 ∧
    storageSave [107] [97, 0, 98] ⟨heap20, 0⟩ = .ok 0 c2st ∧
    storageGetValue 0 c2st = .ok (some [97]) c2st ∧
    some [97] ≠ some ([97, 0, 98] : List Nat) := by
  exact ⟨rfl, rfl, rfl, by decide⟩

/-- C3 (code bug): with no fitting FREE block (cleared 20-byte heap, 21-byte
record), `Storage.save` does not return `-1` — the walk loop of `_save` has
no exit besides a fit, so it runs past the heap end and dies on the
`assert(offset < this._buffer.length)`; the façade's `-1` check and the
trailing `return -1` of `_save` are unreachable. -/
theorem storage_save_no_fit_throws_assert :
    storageClear (List.replicate 20 0) = some heap20 ∧
    storageSave [107] (List.replicate 19 118) ⟨heap20, 0⟩
      = .err "assert failed: offset < buffer.length" ⟨heap20, 0⟩ := by
  exact ⟨rfl, rfl⟩

/-- C4 (counterexample): `BloomFilter.add` reduces each hash modulo the byte
length of the filter buffer, not modulo its bit count.  On a 2-byte filter
(16 bits) with key `"a"`, the first seeded hash is 33794, so the claim
demands bit `33794 % 16 = 2` to be set; the code instead sets bit
`33794 % 2 = 0` (all five hashes of `"a"` are even), producing `[1, 0]`,
with bit 2 clear. -/
theorem bloom_add_uses_byte_length_modulus :
    bloomAdd [97] [0, 0] = [1, 0] ∧
    calcHash 1087 [97] % (8 * 2) = 2 ∧
    bitGet (bloomAdd [97] [0, 0]) 2 = false ∧
    calcHash 1087 [97] % 2 = 0 ∧
    bitGet (bloomAdd [97] [0, 0]) 0 = true := by
  exact ⟨rfl, by decide, by decide, by decide, by decide⟩

/-- C5 (counterexample): the keys `"ab"` and `"bC"` are distinct but have the
same 32-bit hash 194344.  Inserting both (starting from `Index.clear`, with a
check predicate that tells them apart, as the façade's does) yields the
reachable state `c5idx2` whose single bucket chain is `[slot 0, slot 1]` with
hash sequence `[194344, 194344]` — not strictly descending, refuting the
claim that strict descent holds even for equal hashes. -/
theorem bucket_chain_not_strictly_descending :
    ReachableIdx 1 1 1 (List.replicate 24 0) c5idx2 ∧ ¬ StrictChains c5idx2 := by
  constructor
  · refine .set c5idx1 true c5idx2 5 1 [98, 67] (fun _ => false) (by decide) ?_ rfl
    exact .set c5idx0 true c5idx1 5 0 [97, 98] (fun _ => false) (by decide) .init rfl
  · intro h
    obtain ⟨l, hc, hs⟩ := h 0 (by decide)
    have h0 : c5idx2.table.getD 0 0 = 0 := rfl
    rw [h0] at hc
    cases hc with
    | cons s rest hne htail =>
      have h2 : c5idx2.nodes.getD (3 * 0 + 2) 0 = 1 := rfl
      rw [h2] at htail
      cases htail with
      | cons s rest2 hne2 htail2 =>
        have h5 : c5idx2.nodes.getD (3 * 1 + 2) 0 = EOC := rfl
        rw [h5] at htail2
        cases htail2 with
        | nil =>
          have hh : chainHashes c5idx2.nodes [0, 1] = [194344, 194344] := rfl
          rw [hh] at hs
          simp [List.chain'_cons] at hs
        | cons s rest3 hne3 htail3 => exact hne3 rfl

/-- C6 (code bug): the heap walk does not land exactly on the heap end.
After `clear` of a 32-byte heap the first header's size is the whole region
length, so the walk from 0 lands at 37, not 32.  Moreover, on the reachable
20-byte heap `c6pre` (save 6, save 4, delete first — walk exact at 20),
saving a 5-byte record into the freed 6-byte block leaves one spare byte with
no residual header (`other_size = -4 < 0`), after which the walk reads a
garbage header mid-heap and lands at 16777231. -/
theorem heap_walk_misses_heap_end :
    storageClear (List.replicate 32 0) = some heap32 ∧
    heapWalk heap32 40 0 = some 37 ∧ (37 : Nat) ≠ 32 ∧
    c6pre.buf.length = 20 ∧ heapWalk c6pre.buf 40 0 = some 20 ∧
    storageSave [99] [120, 120, 120] c6pre = .ok 0 c6post ∧
    c6post.buf.length = 20 ∧ heapWalk c6post.buf 40 0 = some 16777231 ∧
    (16777231 : Nat) ≠ 20 := by
  exact ⟨rfl, rfl, by decide, rfl, rfl, rfl, rfl, rfl, by decide⟩

/-- C7 (code bug): `Storage.save` never returns `-1`, so the façade's
early-return-false branch is dead.  On a heap with no fit the assertion
failure escapes `NoSql.set` — the operation throws rather than returning
false — after the cache was already written; the index (including the slot
bitmap) and the heap bytes are left unchanged, and the cache cell holds the
new pair, as the claim describes for the unreachable `-1` path. -/
theorem facade_set_heap_full_throws_after_cache_write :
    noSqlSet 5 [107] (List.replicate 19 118) c7sys0
      = some (.err "assert failed: offset < buffer.length" c7sys1) ∧
    c7sys1.index = c7sys0.index ∧
    c7sys1.index.bitmap = [0] ∧
    c7sys1.storage = c7sys0.storage ∧
    c7sys1.cache.keys = [some [107]] ∧
    c7sys1.cache.values = [some (List.replicate 19 118)] := by
  exact ⟨rfl, rfl, rfl, rfl, rfl, rfl⟩

/-- C9 (code bug): `"ab"` and `"bC"` share all five bloom bit positions
(equal hashes under every seed).  After the façade runs `set("ab", ...)`,
`set("bC", ...)`, `delete("ab")`, the unconditional `bloom.remove` has
cleared the shared bits: `bloomHas "bC"` is false although `"bC"` is still
live in the index — its bucket chain is `[slot 1]` whose node stores the hash
of `"bC"` and record offset 9, and the heap key at offset 9 is `"bC"`. -/
theorem bloom_remove_breaks_live_key :
    noSqlSet 5 [97, 98] [120] c9sys0 = some (.ok true c9sys1) ∧
    noSqlSet 5 [98, 67] [121] c9sys1 = some (.ok true c9sys2) ∧
    noSqlDelete 5 [97, 98] c9sys2 = some (.ok true c9sys3) ∧
    bloomHas [98, 67] c9sys3.index.bloom = false ∧
    c9sys3.index.table = [1] ∧
    c9sys3.index.nodes.getD 3 0 = calcHash 199 [98, 67] ∧
    c9sys3.index.nodes.getD 4 0 = 9 ∧
    getKeyPure c9sys3.storage.buf 9 = some [98, 67] ∧
    NodeChain c9sys3.index.nodes (c9sys3.index.table.getD 0 0) [1] := by
  refine ⟨rfl, rfl, rfl, by decide, rfl, rfl, rfl, rfl, ?_⟩
  have h0 : c9sys3.index.table.getD 0 0 = 1 := rfl
  rw [h0]
  refine .cons 1 [] (by decide) ?_
  have h5 : c9sys3.index.nodes.getD (3 * 1 + 2) 0 = EOC := rfl
  rw [h5]
  exact .nil

lemma inv_setInsert
    {m t L : Nat} {st : IndexSt} {C : Nat → List Nat}
    (ctx : IdxCtx m t L st C)
    (hL : 24 * m ≤ L) (hEOC : 8 * m < EOC)
    {key : List Nat} {h idx id pred sF curr : Nat} {bm : List Nat} {l₁ l₂ : List Nat}
    (hidx : idx < t)
    (hsplit : C idx = l₁ ++ l₂)
    (hseg : ChainSeg st.nodes (st.table.getD idx 0) l₁ curr)
    (hge : ∀ s ∈ l₁, st.nodes.getD (3 * s) 0 ≥ h)
    (hfetch : bitmapFetch st.bitmap = some (sF, bm))
    (hpred : (pred = EOC ∧ l₁ = []) ∨ ∃ l₁', l₁ = l₁' ++ [pred]) :
    InvIdx m t L (setInsert key h idx id pred sF bm st) := by
  obtain ⟨hbm, htb, hnd, hbytes, hchain, hsorted, hbusy, hnodup, hdisj⟩ := ctx
  obtain ⟨hsF8', hsFfree, _, hbmeq⟩ := bitmapFetch_some hfetch
  rw [hbm] at hsF8'
  have hfresh : ∀ b, b < t → sF ∉ C b := by
    intro b hb hmem
    have hbit := (hbusy b hb sF hmem).2
    rw [hsFfree] at hbit
    exact absurd hbit (by simp)
  have hl1sub : List.Sublist l₁ (C idx) := hsplit ▸ List.sublist_append_left l₁ l₂
  have hl1mem : ∀ x ∈ l₁, x ∈ C idx := fun x hx => hsplit ▸ List.mem_append_left l₂ hx
  have hl1busy : ∀ x ∈ l₁, x < 8 * m ∧ bitGet st.bitmap x = true :=
    fun x hx => hbusy idx hidx x (hl1mem x hx)
  have hsFne : ∀ x ∈ l₁, x ≠ sF := fun x hx he => hfresh idx hidx (he ▸ hl1mem x hx)
  have hsFneEOC : sF ≠ EOC := by omega
  have hn1_hash : ∀ x, x ≠ sF →
      (((st.nodes.set (3 * sF) h).set (3 * sF + 1) id).set (3 * sF + 2) EOC).getD (3 * x) 0
        = st.nodes.getD (3 * x) 0 := by
    intro x hx
    rw [getD_set_ne _ _ (by omega), getD_set_ne _ _ (by omega), getD_set_ne _ _ (by omega)]
  have hn1_link : ∀ x, x ≠ sF →
      (((st.nodes.set (3 * sF) h).set (3 * sF + 1) id).set (3 * sF + 2) EOC).getD (3 * x + 2) 0
        = st.nodes.getD (3 * x + 2) 0 := by
    intro x hx
    rw [getD_set_ne _ _ (by omega), getD_set_ne _ _ (by omega), getD_set_ne _ _ (by omega)]
  have hn1_hash_sF :
      (((st.nodes.set (3 * sF) h).set (3 * sF + 1) id).set (3 * sF + 2) EOC).getD (3 * sF) 0
        = h := by
    rw [getD_set_ne _ _ (by omega), getD_set_ne _ _ (by omega),
      getD_set_self _ _ (by simp [hnd]; omega)]
  have hn1_link_sF :
      (((st.nodes.set (3 * sF) h).set (3 * sF + 1) id).set (3 * sF + 2) EOC).getD (3 * sF + 2) 0
        = EOC := by
    rw [getD_set_self _ _ (by simp [hnd]; omega)]
  have hlen1 : (((st.nodes.set (3 * sF) h).set (3 * sF + 1) id).set (3 * sF + 2) EOC).length
      = L := by simp [hnd]
  have hbmlen : bm.length = m := by rw [hbmeq, length_bitSetAt, hbm]
  have hbmbytes : BytesLt bm := hbmeq ▸ bytesLt_bitSetAt _ hbytes
  have hbmget : ∀ x, x ≠ sF → bitGet bm x = bitGet st.bitmap x := by
    intro x hx
    rw [hbmeq, bitGet_bitSetAt hbytes (by rw [hbm]; omega) x]
    simp [hx]
  have hbmgetsF : bitGet bm sF = true := by
    rw [hbmeq, bitGet_bitSetAt hbytes (by rw [hbm]; omega) sF]
    simp
  rcases hpred with ⟨hpEOC, hl1nil⟩ | ⟨l₁', hl1eq⟩
  · -- insert at the bucket head
    subst hpEOC
    subst hl1nil
    have hst' : setInsert key h idx id EOC sF bm st =
        { st with
            bitmap := bm,
            nodes := ((st.nodes.set (3 * sF) h).set (3 * sF + 1) id).set (3 * sF + 2) EOC,
            table := st.table.set idx sF,
            bloom := bloomAdd key st.bloom } := by
      rw [setInsert]
      simp
    rw [hst']
    refine ⟨Function.update C idx [sF], hbmlen, by simp [htb], by simp [hlen1], hbmbytes,
      ?_, ?_, ?_, ?_, ?_⟩
    · intro b hb
      by_cases hbidx : b = idx
      · subst hbidx
        rw [Function.update_same]
        have hhead : (st.table.set b sF).getD b 0 = sF := getD_set_self _ _ (by omega)
        rw [hhead]
        exact .cons sF [] hsFneEOC (by rw [hn1_link_sF]; exact .nil)
      · rw [Function.update_noteq hbidx]
        have hhead : (st.table.set idx sF).getD b 0 = st.table.getD b 0 :=
          getD_set_ne _ _ (fun he => hbidx he.symm)
        rw [hhead]
        exact nodeChain_congr (hchain b hb)
          (fun x hx => hn1_link x (fun he => hfresh b hb (he ▸ hx)))
    · intro b hb
      by_cases hbidx : b = idx
      · subst hbidx
        rw [Function.update_same]
        simp [chainHashes]
      · rw [Function.update_noteq hbidx]
        have hmapeq : chainHashes
            (((st.nodes.set (3 * sF) h).set (3 * sF + 1) id).set (3 * sF + 2) EOC) (C b)
            = chainHashes st.nodes (C b) := by
          unfold chainHashes
          exact List.map_congr_left
            (fun x hx => hn1_hash x (fun he => hfresh b hb (he ▸ hx)))
        rw [hmapeq]
        exact hsorted b hb
    · intro b hb s hs
      by_cases hbidx : b = idx
      · subst hbidx
        rw [Function.update_same] at hs
        simp at hs
        subst hs
        exact ⟨hsF8', hbmgetsF⟩
      · rw [Function.update_noteq hbidx] at hs
        have hbz := hbusy b hb s hs
        have hne : s ≠ sF := fun he => hfresh b hb (he ▸ hs)
        exact ⟨hbz.1, by rw [hbmget s hne]; exact hbz.2⟩
    · intro b hb
      by_cases hbidx : b = idx
      · subst hbidx
        rw [Function.update_same]
        simp
      · rw [Function.update_noteq hbidx]
        exact hnodup b hb
    · intro b b' hb hb' hbne s hs
      by_cases hbidx : b = idx
      · subst hbidx
        rw [Function.update_same] at hs
        simp at hs
        subst hs
        rw [Function.update_noteq (fun he => hbne he.symm)]
        exact hfresh b' hb'
      · rw [Function.update_noteq hbidx] at hs
        by_cases hbidx' : b' = idx
        · subst hbidx'
          rw [Function.update_same]
          simp
          exact fun he => hfresh b hb (he ▸ hs)
        · rw [Function.update_noteq hbidx']
          exact hdisj b b' hb hb' hbne s hs
  · -- insert after the predecessor `pred` (the last slot of the walked prefix)
    subst hl1eq
    have hpredl1 : pred ∈ l₁' ++ [pred] := by simp
    have hpredne : pred ≠ EOC := chainSeg_mem_ne_eoc hseg pred hpredl1
    have hpredmem : pred ∈ C idx := hl1mem pred hpredl1
    have hpredsF : pred ≠ sF := hsFne pred hpredl1
    have hpred8 : pred < 8 * m := (hl1busy pred hpredl1).1
    have hst' : setInsert key h idx id pred sF bm st =
        { st with
            bitmap := bm,
            nodes := ((((st.nodes.set (3 * sF) h).set (3 * sF + 1) id).set
              (3 * sF + 2) EOC).set (3 * pred + 2) sF),
            bloom := bloomAdd key st.bloom } := by
      rw [setInsert]
      simp [hpredne]
    have hn2_hash : ∀ x, x ≠ sF →
        (((((st.nodes.set (3 * sF) h).set (3 * sF + 1) id).set (3 * sF + 2) EOC).set
          (3 * pred + 2) sF)).getD (3 * x) 0 = st.nodes.getD (3 * x) 0 := by
      intro x hx
      rw [getD_set_ne _ _ (by omega)]
      exact hn1_hash x hx
    have hn2_hash_sF :
        (((((st.nodes.set (3 * sF) h).set (3 * sF + 1) id).set (3 * sF + 2) EOC).set
          (3 * pred + 2) sF)).getD (3 * sF) 0 = h := by
      rw [getD_set_ne _ _ (by omega)]
      exact hn1_hash_sF
    have hn2_link : ∀ x, x ≠ sF → x ≠ pred →
        (((((st.nodes.set (3 * sF) h).set (3 * sF + 1) id).set (3 * sF + 2) EOC).set
          (3 * pred + 2) sF)).getD (3 * x + 2) 0 = st.nodes.getD (3 * x + 2) 0 := by
      intro x hx hxp
      rw [getD_set_ne _ _ (by omega)]
      exact hn1_link x hx
    have hn2_link_pred :
        (((((st.nodes.set (3 * sF) h).set (3 * sF + 1) id).set (3 * sF + 2) EOC).set
          (3 * pred + 2) sF)).getD (3 * pred + 2) 0 = sF := by
      rw [getD_set_self _ _ (by rw [hlen1]; omega)]
    have hn2_link_sF :
        (((((st.nodes.set (3 * sF) h).set (3 * sF + 1) id).set (3 * sF + 2) EOC).set
          (3 * pred + 2) sF)).getD (3 * sF + 2) 0 = EOC := by
      rw [getD_set_ne _ _ (by omega)]
      exact hn1_link_sF
    have hlen2 : (((((st.nodes.set (3 * sF) h).set (3 * sF + 1) id).set (3 * sF + 2) EOC).set
        (3 * pred + 2) sF)).length = L := by simp [hnd]
    have hl1nodup : (l₁' ++ [pred]).Nodup := (hnodup idx hidx).sublist hl1sub
    have hl1'pred : ∀ x ∈ l₁', x ≠ pred := by
      intro x hx
      have hd := (List.nodup_append.mp hl1nodup).2.2
      exact fun he => hd hx (by simp [he])
    rw [hst']
    refine ⟨Function.update C idx ((l₁' ++ [pred]) ++ [sF]), hbmlen, by simp [htb],
      by simp [hlen2], hbmbytes, ?_, ?_, ?_, ?_, ?_⟩
    · intro b hb
      by_cases hbidx : b = idx
      · subst hbidx
        rw [Function.update_same]
        have hseg2 : ChainSeg
            (((((st.nodes.set (3 * sF) h).set (3 * sF + 1) id).set (3 * sF + 2) EOC).set
              (3 * pred + 2) sF)) (st.table.getD b 0) (l₁' ++ [pred]) sF := by
          refine chainSeg_retarget hseg ?_ hn2_link_pred
          intro x hx
          exact hn2_link x (hsFne x (List.mem_append_left _ hx)) (hl1'pred x hx)
        refine chainSeg_append_nodeChain hseg2 ?_
        exact .cons sF [] hsFneEOC (by rw [hn2_link_sF]; exact .nil)
      · rw [Function.update_noteq hbidx]
        exact nodeChain_congr (hchain b hb) (fun x hx =>
          hn2_link x (fun he => hfresh b hb (he ▸ hx))
            (fun he => hdisj b idx hb hidx hbidx x hx (he ▸ hpredmem)))
    · intro b hb
      by_cases hbidx : b = idx
      · subst hbidx
        rw [Function.update_same]
        have hmapeq : chainHashes
            (((((st.nodes.set (3 * sF) h).set (3 * sF + 1) id).set (3 * sF + 2) EOC).set
              (3 * pred + 2) sF)) ((l₁' ++ [pred]) ++ [sF])
            = chainHashes st.nodes (l₁' ++ [pred]) ++ [h] := by
          unfold chainHashes
          rw [List.map_append,
            List.map_congr_left (fun x hx => hn2_hash x (hsFne x hx))]
          simp only [List.map_cons, List.map_nil, hn2_hash_sF]
        rw [hmapeq]
        rw [List.chain'_append]
        refine ⟨?_, by simp, ?_⟩
        · have hsub2 : List.Sublist (chainHashes st.nodes (l₁' ++ [pred]))
              (chainHashes st.nodes (C b)) := by
            unfold chainHashes
            exact (hl1sub.map _)
          exact (hsorted b hb).sublist hsub2
        · intro x hx y hy
          simp at hy
          subst hy
          have hlast : (chainHashes st.nodes (l₁' ++ [pred])).getLast?
              = some (st.nodes.getD (3 * pred) 0) := by
            unfold chainHashes
            rw [List.map_append]
            simp only [List.map_cons, List.map_nil]
            rw [List.getLast?_concat]
          rw [hlast, Option.mem_def] at hx
          injection hx with hx
          rw [← hx]
          exact hge pred hpredl1
      · rw [Function.update_noteq hbidx]
        have hmapeq : chainHashes
            (((((st.nodes.set (3 * sF) h).set (3 * sF + 1) id).set (3 * sF + 2) EOC).set
              (3 * pred + 2) sF)) (C b) = chainHashes st.nodes (C b) := by
          unfold chainHashes
          exact List.map_congr_left (fun x hx => hn2_hash x (fun he => hfresh b hb (he ▸ hx)))
        rw [hmapeq]
        exact hsorted b hb
    · intro b hb s hs
      by_cases hbidx : b = idx
      · subst hbidx
        rw [Function.update_same] at hs
        rcases List.mem_append.mp hs with hs1 | hs2
        · have hbz := hl1busy s hs1
          exact ⟨hbz.1, by rw [hbmget s (hsFne s hs1)]; exact hbz.2⟩
        · simp at hs2
          subst hs2
          exact ⟨hsF8', hbmgetsF⟩
      · rw [Function.update_noteq hbidx] at hs
        have hbz := hbusy b hb s hs
        have hne : s ≠ sF := fun he => hfresh b hb (he ▸ hs)
        exact ⟨hbz.1, by rw [hbmget s hne]; exact hbz.2⟩
    · intro b hb
      by_cases hbidx : b = idx
      · subst hbidx
        rw [Function.update_same]
        rw [List.nodup_append]
        exact ⟨hl1nodup, by simp, by intro x hx; simp; exact fun he => (hsFne x hx) he⟩
      · rw [Function.update_noteq hbidx]
        exact hnodup b hb
    · intro b b' hb hb' hbne s hs
      by_cases hbidx : b = idx
      · subst hbidx
        rw [Function.update_same] at hs
        rw [Function.update_noteq (fun he => hbne he.symm)]
        rcases List.mem_append.mp hs with hs1 | hs2
        · exact hdisj b b' hb hb' hbne s (hl1mem s hs1)
        · simp at hs2
          subst hs2
          exact hfresh b' hb'
      · rw [Function.update_noteq hbidx] at hs
        by_cases hbidx' : b' = idx
        · subst hbidx'
          rw [Function.update_same]
          intro hmem
          rcases List.mem_append.mp hmem with hs1 | hs2
          · exact hdisj b b' hb hb' hbne s hs (hl1mem s hs1)
          · simp at hs2
            exact hfresh b hb (hs2 ▸ hs)
        · rw [Function.update_noteq hbidx']
          exact hdisj b b' hb hb' hbne s hs

lemma inv_setClobber
    {m t L : Nat} {st : IndexSt} {C : Nat → List Nat}
    (ctx : IdxCtx m t L st C) (hL : 24 * m ≤ L)
    {key : List Nat} {idx pred curr : Nat} {l₁ l₂ : List Nat}
    (hidx : idx < t)
    (hsplit : C idx = l₁ ++ l₂)
    (hseg : ChainSeg st.nodes (st.table.getD idx 0) l₁ curr)
    (hpred : (pred = EOC ∧ l₁ = []) ∨ ∃ l₁', l₁ = l₁' ++ [pred]) :
    InvIdx m t L (setClobber key idx pred st) := by
  obtain ⟨hbm, htb, hnd, hbytes, hchain, hsorted, hbusy, hnodup, hdisj⟩ := ctx
  have hl1sub : List.Sublist l₁ (C idx) := hsplit ▸ List.sublist_append_left l₁ l₂
  have hl1mem : ∀ x ∈ l₁, x ∈ C idx := fun x hx => hsplit ▸ List.mem_append_left l₂ hx
  rcases hpred with ⟨hpEOC, hl1nil⟩ | ⟨l₁', hl1eq⟩
  · subst hpEOC
    subst hl1nil
    have hst' : setClobber key idx EOC st =
        { st with table := st.table.set idx EOC, bloom := bloomAdd key st.bloom } := by
      rw [setClobber]
      simp
    rw [hst']
    refine ⟨Function.update C idx [], hbm, by simp [htb], hnd, hbytes, ?_, ?_, ?_, ?_, ?_⟩
    · intro b hb
      by_cases hbidx : b = idx
      · subst hbidx
        rw [Function.update_same]
        have hhead : (st.table.set b EOC).getD b 0 = EOC := getD_set_self _ _ (by omega)
        rw [hhead]
        exact .nil
      · rw [Function.update_noteq hbidx]
        have hhead : (st.table.set idx EOC).getD b 0 = st.table.getD b 0 :=
          getD_set_ne _ _ (fun he => hbidx he.symm)
        rw [hhead]
        exact hchain b hb
    · intro b hb
      by_cases hbidx : b = idx
      · subst hbidx
        rw [Function.update_same]
        simp [chainHashes]
      · rw [Function.update_noteq hbidx]
        exact hsorted b hb
    · intro b hb s hs
      by_cases hbidx : b = idx
      · subst hbidx
        rw [Function.update_same] at hs
        simp at hs
      · rw [Function.update_noteq hbidx] at hs
        exact hbusy b hb s hs
    · intro b hb
      by_cases hbidx : b = idx
      · subst hbidx
        rw [Function.update_same]
        simp
      · rw [Function.update_noteq hbidx]
        exact hnodup b hb
    · intro b b' hb hb' hbne s hs
      by_cases hbidx : b = idx
      · subst hbidx
        rw [Function.update_same] at hs
        simp at hs
      · rw [Function.update_noteq hbidx] at hs
        by_cases hbidx' : b' = idx
        · subst hbidx'
          rw [Function.update_same]
          simp
        · rw [Function.update_noteq hbidx']
          exact hdisj b b' hb hb' hbne s hs
  · subst hl1eq
    have hpredl1 : pred ∈ l₁' ++ [pred] := by simp
    have hpredne : pred ≠ EOC := chainSeg_mem_ne_eoc hseg pred hpredl1
    have hpredmem : pred ∈ C idx := hl1mem pred hpredl1
    have hpred8 : pred < 8 * m := (hbusy idx hidx pred hpredmem).1
    have hst' : setClobber key idx pred st =
        { st with nodes := st.nodes.set (3 * pred + 2) EOC,
                  bloom := bloomAdd key st.bloom } := by
      rw [setClobber]
      simp [hpredne]
    have hn_hash : ∀ x, (st.nodes.set (3 * pred + 2) EOC).getD (3 * x) 0
        = st.nodes.getD (3 * x) 0 := by
      intro x
      rw [getD_set_ne _ _ (by omega)]
    have hn_link : ∀ x, x ≠ pred → (st.nodes.set (3 * pred + 2) EOC).getD (3 * x + 2) 0
        = st.nodes.getD (3 * x + 2) 0 := by
      intro x hx
      rw [getD_set_ne _ _ (by omega)]
    have hn_link_pred : (st.nodes.set (3 * pred + 2) EOC).getD (3 * pred + 2) 0 = EOC := by
      rw [getD_set_self _ _ (by omega)]
    have hl1nodup : (l₁' ++ [pred]).Nodup := (hnodup idx hidx).sublist hl1sub
    have hl1'pred : ∀ x ∈ l₁', x ≠ pred := by
      intro x hx
      have hd := (List.nodup_append.mp hl1nodup).2.2
      exact fun he => hd hx (by simp [he])
    rw [hst']
    refine ⟨Function.update C idx (l₁' ++ [pred]), hbm, htb, by simp [hnd], hbytes,
      ?_, ?_, ?_, ?_, ?_⟩
    · intro b hb
      by_cases hbidx : b = idx
      · subst hbidx
        rw [Function.update_same]
        apply chainSeg_to_nodeChain
        refine chainSeg_retarget hseg ?_ hn_link_pred
        intro x hx
        exact hn_link x (hl1'pred x hx)
      · rw [Function.update_noteq hbidx]
        exact nodeChain_congr (hchain b hb) (fun x hx =>
          hn_link x (fun he => hdisj b idx hb hidx hbidx x hx (he ▸ hpredmem)))
    · intro b hb
      have hmapeq : ∀ l, chainHashes (st.nodes.set (3 * pred + 2) EOC) l
          = chainHashes st.nodes l := by
        intro l
        unfold chainHashes
        exact List.map_congr_left (fun x _ => hn_hash x)
      by_cases hbidx : b = idx
      · subst hbidx
        rw [Function.update_same, hmapeq]
        exact (hsorted b hb).sublist (by unfold chainHashes; exact hl1sub.map _)
      · rw [Function.update_noteq hbidx, hmapeq]
        exact hsorted b hb
    · intro b hb s hs
      by_cases hbidx : b = idx
      · subst hbidx
        rw [Function.update_same] at hs
        exact hbusy b hb s (hl1mem s hs)
      · rw [Function.update_noteq hbidx] at hs
        exact hbusy b hb s hs
    · intro b hb
      by_cases hbidx : b = idx
      · subst hbidx
        rw [Function.update_same]
        exact hl1nodup
      · rw [Function.update_noteq hbidx]
        exact hnodup b hb
    · intro b b' hb hb' hbne s hs
      by_cases hbidx : b = idx
      · subst hbidx
        rw [Function.update_same] at hs
        rw [Function.update_noteq (fun he => hbne he.symm)]
        exact hdisj b b' hb hb' hbne s (hl1mem s hs)
      · rw [Function.update_noteq hbidx] at hs
        by_cases hbidx' : b' = idx
        · subst hbidx'
          rw [Function.update_same]
          exact fun hmem => hdisj b b' hb hb' hbne s hs (hl1mem s hmem)
        · rw [Function.update_noteq hbidx']
          exact hdisj b b' hb hb' hbne s hs

lemma setLoop_inv
    {m t L : Nat} {st : IndexSt} {C : Nat → List Nat}
    (ctx : IdxCtx m t L st C) (hL : 24 * m ≤ L) (hEOC : 8 * m < EOC)
    {key : List Nat} {h idx id : Nat} {chk : Nat → Bool}
    (hidx : idx < t) :
    ∀ (fuel : Nat) (l₁ l₂ : List Nat) (pred curr : Nat) (res : Bool) (st' : IndexSt),
      C idx = l₁ ++ l₂ →
      ChainSeg st.nodes (st.table.getD idx 0) l₁ curr →
      NodeChain st.nodes curr l₂ →
      (∀ s ∈ l₁, st.nodes.getD (3 * s) 0 ≥ h) →
      ((pred = EOC ∧ l₁ = []) ∨ ∃ l₁', l₁ = l₁' ++ [pred]) →
      setLoop key h idx id chk fuel pred curr st = some (res, st') →
      InvIdx m t L st' := by
  intro fuel
  induction fuel with
  | zero =>
    intro l₁ l₂ pred curr res st' _ _ _ _ _ hstep
    simp [setLoop] at hstep
  | succ fuel ih =>
    intro l₁ l₂ pred curr res st' hsplit hseg hl2 hge hpred hstep
    rw [setLoop] at hstep
    by_cases hc : curr = EOC
    · rw [if_pos hc] at hstep
      cases hfetch : bitmapFetch st.bitmap with
      | some pr =>
        obtain ⟨sF, bm⟩ := pr
        rw [hfetch] at hstep
        simp only [Option.some.injEq, Prod.mk.injEq] at hstep
        obtain ⟨-, rfl⟩ := hstep
        exact inv_setInsert ctx hL hEOC hidx hsplit hseg hge hfetch hpred
      | none =>
        rw [hfetch] at hstep
        simp only [Option.some.injEq, Prod.mk.injEq] at hstep
        obtain ⟨-, rfl⟩ := hstep
        exact inv_setClobber ctx hL hidx hsplit hseg hpred
    · rw [if_neg hc] at hstep
      obtain ⟨l₂', rfl, htail⟩ := nodeChain_cons_inv hl2 hc
      dsimp only at hstep
      by_cases hdup : st.nodes.getD (3 * curr) 0 = h ∧
          chk (st.nodes.getD (3 * curr + 1) 0) = true
      · -- duplicate found: state unchanged
        rw [if_pos hdup] at hstep
        simp only [Option.some.injEq, Prod.mk.injEq] at hstep
        obtain ⟨-, rfl⟩ := hstep
        exact ⟨C, ctx⟩
      · rw [if_neg hdup] at hstep
        by_cases hgt : h > st.nodes.getD (3 * curr) 0
        · -- descending-order insertion point: h > current hash
          rw [if_pos hgt] at hstep
          cases hfetch : bitmapFetch st.bitmap with
          | some pr =>
            obtain ⟨sF, bm⟩ := pr
            rw [hfetch] at hstep
            simp only [Option.some.injEq, Prod.mk.injEq] at hstep
            obtain ⟨-, rfl⟩ := hstep
            exact inv_setInsert ctx hL hEOC hidx hsplit hseg hge hfetch hpred
          | none =>
            rw [hfetch] at hstep
            simp only [Option.some.injEq, Prod.mk.injEq] at hstep
            obtain ⟨-, rfl⟩ := hstep
            exact inv_setClobber ctx hL hidx hsplit hseg hpred
        · -- advance along the chain
          rw [if_neg hgt] at hstep
          refine ih (l₁ ++ [curr]) l₂' curr (st.nodes.getD (3 * curr + 2) 0) res st' ?_ ?_
            htail ?_ (Or.inr ⟨l₁, rfl⟩) hstep
          · rw [hsplit]
            simp
          · exact chainSeg_snoc hseg hc rfl
          · intro s hs
            rcases List.mem_append.mp hs with hs1 | hs2
            · exact hge s hs1
            · simp at hs2
              subst hs2
              omega

lemma getD_replicate (a d : Nat) : ∀ (n i : Nat),
    (List.replicate n a).getD i d = if i < n then a else d := by
  intro n
  induction n with
  | zero =>
    intro i
    rw [List.replicate, if_neg (by omega)]
    rfl
  | succ n ih =>
    intro i
    cases i with
    | zero =>
      rw [List.replicate, if_pos (by omega)]
      rfl
    | succ i =>
      rw [List.replicate, List.getD_cons_succ, ih i]
      by_cases h : i < n
      · rw [if_pos h, if_pos (by omega)]
      · rw [if_neg h, if_neg (by omega)]

lemma inv_delSplice_head
    {m t L : Nat} {st : IndexSt} {C : Nat → List Nat}
    (ctx : IdxCtx m t L st C)
    {key : List Nat} {idx curr : Nat} {l₂' : List Nat}
    (hidx : idx < t)
    (hsplit : C idx = curr :: l₂')
    (htail : NodeChain st.nodes (st.nodes.getD (3 * curr + 2) 0) l₂') :
    InvIdx m t L
      { st with table := st.table.set idx (st.nodes.getD (3 * curr + 2) 0),
                bitmap := bitmapFree st.bitmap curr,
                bloom := bloomRemove key st.bloom } := by
  obtain ⟨hbm, htb, hnd, hbytes, hchain, hsorted, hbusy, hnodup, hdisj⟩ := ctx
  have hcurrmem : curr ∈ C idx := by rw [hsplit]; simp
  have hcurr8 : curr < 8 * m := (hbusy idx hidx curr hcurrmem).1
  have hbmlen : (bitmapFree st.bitmap curr).length = m := by
    rw [bitmapFree, length_bitClearAt, hbm]
  have hbmbytes : BytesLt (bitmapFree st.bitmap curr) := bytesLt_bitClearAt _ hbytes
  have hbmget : ∀ x, x ≠ curr →
      bitGet (bitmapFree st.bitmap curr) x = bitGet st.bitmap x := by
    intro x hx
    rw [bitmapFree, bitGet_bitClearAt hbytes (by rw [hbm]; omega) x]
    simp [hx]
  have hnodupidx := hnodup idx hidx
  rw [hsplit] at hnodupidx
  have hcurrl2 : curr ∉ l₂' := (List.nodup_cons.mp hnodupidx).1
  refine ⟨Function.update C idx l₂', hbmlen, by simp [htb], hnd, hbmbytes, ?_, ?_, ?_, ?_, ?_⟩
  · intro b hb
    by_cases hbidx : b = idx
    · subst hbidx
      rw [Function.update_same]
      have hhead : (st.table.set b (st.nodes.getD (3 * curr + 2) 0)).getD b 0
          = st.nodes.getD (3 * curr + 2) 0 := getD_set_self _ _ (by omega)
      rw [hhead]
      exact htail
    · rw [Function.update_noteq hbidx]
      have hhead : (st.table.set idx (st.nodes.getD (3 * curr + 2) 0)).getD b 0
          = st.table.getD b 0 := getD_set_ne _ _ (fun he => hbidx he.symm)
      rw [hhead]
      exact hchain b hb
  · intro b hb
    by_cases hbidx : b = idx
    · subst hbidx
      rw [Function.update_same]
      have hsor := hsorted b hb
      rw [hsplit] at hsor
      exact hsor.sublist (by
        unfold chainHashes
        exact (List.Sublist.cons _ (List.Sublist.refl _)).map _)
    · rw [Function.update_noteq hbidx]
      exact hsorted b hb
  · intro b hb s hs
    by_cases hbidx : b = idx
    · subst hbidx
      rw [Function.update_same] at hs
      have hmem : s ∈ C b := by rw [hsplit]; exact List.mem_cons_of_mem _ hs
      have hne : s ≠ curr := fun he => hcurrl2 (he ▸ hs)
      have hbz := hbusy b hb s hmem
      exact ⟨hbz.1, by rw [hbmget s hne]; exact hbz.2⟩
    · rw [Function.update_noteq hbidx] at hs
      have hbz := hbusy b hb s hs
      have hne : s ≠ curr := fun he => hdisj b idx hb hidx hbidx s hs (he ▸ hcurrmem)
      exact ⟨hbz.1, by rw [hbmget s hne]; exact hbz.2⟩
  · intro b hb
    by_cases hbidx : b = idx
    · subst hbidx
      rw [Function.update_same]
      exact (List.nodup_cons.mp hnodupidx).2
    · rw [Function.update_noteq hbidx]
      exact hnodup b hb
  · intro b b' hb hb' hbne s hs
    by_cases hbidx : b = idx
    · subst hbidx
      rw [Function.update_same] at hs
      rw [Function.update_noteq (fun he => hbne he.symm)]
      exact hdisj b b' hb hb' hbne s (by rw [hsplit]; exact List.mem_cons_of_mem _ hs)
    · rw [Function.update_noteq hbidx] at hs
      by_cases hbidx' : b' = idx
      · subst hbidx'
        rw [Function.update_same]
        exact fun hmem => hdisj b b' hb hb' hbne s hs
          (by rw [hsplit]; exact List.mem_cons_of_mem _ hmem)
      · rw [Function.update_noteq hbidx']
        exact hdisj b b' hb hb' hbne s hs

lemma inv_delSplice_mid
    {m t L : Nat} {st : IndexSt} {C : Nat → List Nat}
    (ctx : IdxCtx m t L st C) (hL : 24 * m ≤ L)
    {key : List Nat} {idx pred curr : Nat} {l₁' l₂' : List Nat}
    (hidx : idx < t)
    (hsplit : C idx = (l₁' ++ [pred]) ++ curr :: l₂')
    (hseg : ChainSeg st.nodes (st.table.getD idx 0) (l₁' ++ [pred]) curr)
    (htail : NodeChain st.nodes (st.nodes.getD (3 * curr + 2) 0) l₂') :
    InvIdx m t L
      { st with nodes := st.nodes.set (3 * pred + 2) (st.nodes.getD (3 * curr + 2) 0),
                bitmap := bitmapFree st.bitmap curr,
                bloom := bloomRemove key st.bloom } := by
  obtain ⟨hbm, htb, hnd, hbytes, hchain, hsorted, hbusy, hnodup, hdisj⟩ := ctx
  have hpredl1 : pred ∈ l₁' ++ [pred] := by simp
  have hpredmem : pred ∈ C idx := by
    rw [hsplit]
    exact List.mem_append_left _ hpredl1
  have hcurrmem : curr ∈ C idx := by rw [hsplit]; simp
  have hpred8 : pred < 8 * m := (hbusy idx hidx pred hpredmem).1
  have hcurr8 : curr < 8 * m := (hbusy idx hidx curr hcurrmem).1
  have hbmlen : (bitmapFree st.bitmap curr).length = m := by
    rw [bitmapFree, length_bitClearAt, hbm]
  have hbmbytes : BytesLt (bitmapFree st.bitmap curr) := bytesLt_bitClearAt _ hbytes
  have hbmget : ∀ x, x ≠ curr →
      bitGet (bitmapFree st.bitmap curr) x = bitGet st.bitmap x := by
    intro x hx
    rw [bitmapFree, bitGet_bitClearAt hbytes (by rw [hbm]; omega) x]
    simp [hx]
  have hnodupidx := hnodup idx hidx
  rw [hsplit] at hnodupidx
  have hnd3 := List.nodup_append.mp hnodupidx
  have hl1'pred : ∀ x ∈ l₁', x ≠ pred := by
    intro x hx
    have hdj := (List.nodup_append.mp hnd3.1).2.2
    exact fun he => hdj hx (by simp [he])
  have hpredl2 : pred ∉ l₂' :=
    fun hx => hnd3.2.2 hpredl1 (List.mem_cons_of_mem _ hx)
  have hcurrnotl1 : curr ∉ l₁' ++ [pred] :=
    fun hx => hnd3.2.2 hx (List.mem_cons_self _ _)
  have hcurrl2 : curr ∉ l₂' := (List.nodup_cons.mp hnd3.2.1).1
  have hn_hash : ∀ x,
      (st.nodes.set (3 * pred + 2) (st.nodes.getD (3 * curr + 2) 0)).getD (3 * x) 0
        = st.nodes.getD (3 * x) 0 := by
    intro x
    rw [getD_set_ne _ _ (by omega)]
  have hn_link : ∀ x, x ≠ pred →
      (st.nodes.set (3 * pred + 2) (st.nodes.getD (3 * curr + 2) 0)).getD (3 * x + 2) 0
        = st.nodes.getD (3 * x + 2) 0 := by
    intro x hx
    rw [getD_set_ne _ _ (by omega)]
  have hn_link_pred :
      (st.nodes.set (3 * pred + 2) (st.nodes.getD (3 * curr + 2) 0)).getD (3 * pred + 2) 0
        = st.nodes.getD (3 * curr + 2) 0 := getD_set_self _ _ (by omega)
  have hmapeq : ∀ l,
      chainHashes (st.nodes.set (3 * pred + 2) (st.nodes.getD (3 * curr + 2) 0)) l
        = chainHashes st.nodes l := by
    intro l
    unfold chainHashes
    exact List.map_congr_left (fun x _ => hn_hash x)
  have hsub : List.Sublist ((l₁' ++ [pred]) ++ l₂') ((l₁' ++ [pred]) ++ curr :: l₂') :=
    List.Sublist.append_left (List.Sublist.cons _ (List.Sublist.refl _)) _
  have hsubmem : ∀ x ∈ (l₁' ++ [pred]) ++ l₂', x ∈ C idx := by
    intro x hx
    rw [hsplit]
    exact hsub.subset hx
  have hne_curr : ∀ x ∈ (l₁' ++ [pred]) ++ l₂', x ≠ curr := by
    intro x hx he
    subst he
    rcases List.mem_append.mp hx with h1 | h2
    · exact hcurrnotl1 h1
    · exact hcurrl2 h2
  refine ⟨Function.update C idx ((l₁' ++ [pred]) ++ l₂'), hbmlen, htb, by simp [hnd],
    hbmbytes, ?_, ?_, ?_, ?_, ?_⟩
  · intro b hb
    by_cases hbidx : b = idx
    · subst hbidx
      rw [Function.update_same]
      have hseg' : ChainSeg (st.nodes.set (3 * pred + 2) (st.nodes.getD (3 * curr + 2) 0))
          (st.table.getD b 0) (l₁' ++ [pred]) (st.nodes.getD (3 * curr + 2) 0) :=
        chainSeg_retarget hseg (fun x hx => hn_link x (hl1'pred x hx)) hn_link_pred
      have htail' : NodeChain (st.nodes.set (3 * pred + 2) (st.nodes.getD (3 * curr + 2) 0))
          (st.nodes.getD (3 * curr + 2) 0) l₂' :=
        nodeChain_congr htail (fun x hx => hn_link x (fun he => hpredl2 (he ▸ hx)))
      exact chainSeg_append_nodeChain hseg' htail'
    · rw [Function.update_noteq hbidx]
      exact nodeChain_congr (hchain b hb) (fun x hx =>
        hn_link x (fun he => hdisj b idx hb hidx hbidx x hx (he ▸ hpredmem)))
  · intro b hb
    by_cases hbidx : b = idx
    · subst hbidx
      rw [Function.update_same, hmapeq]
      have hsor := hsorted b hb
      rw [hsplit] at hsor
      exact hsor.sublist (by unfold chainHashes; exact hsub.map _)
    · rw [Function.update_noteq hbidx, hmapeq]
      exact hsorted b hb
  · intro b hb s hs
    by_cases hbidx : b = idx
    · subst hbidx
      rw [Function.update_same] at hs
      have hbz := hbusy b hb s (hsubmem s hs)
      exact ⟨hbz.1, by rw [hbmget s (hne_curr s hs)]; exact hbz.2⟩
    · rw [Function.update_noteq hbidx] at hs
      have hbz := hbusy b hb s hs
      have hne : s ≠ curr := fun he => hdisj b idx hb hidx hbidx s hs (he ▸ hcurrmem)
      exact ⟨hbz.1, by rw [hbmget s hne]; exact hbz.2⟩
  · intro b hb
    by_cases hbidx : b = idx
    · subst hbidx
      rw [Function.update_same]
      exact hnodupidx.sublist hsub
    · rw [Function.update_noteq hbidx]
      exact hnodup b hb
  · intro b b' hb hb' hbne s hs
    by_cases hbidx : b = idx
    · subst hbidx
      rw [Function.update_same] at hs
      rw [Function.update_noteq (fun he => hbne he.symm)]
      exact hdisj b b' hb hb' hbne s (hsubmem s hs)
    · rw [Function.update_noteq hbidx] at hs
      by_cases hbidx' : b' = idx
      · subst hbidx'
        rw [Function.update_same]
        exact fun hmem => hdisj b b' hb hb' hbne s hs (hsubmem s hmem)
      · rw [Function.update_noteq hbidx']
        exact hdisj b b' hb hb' hbne s hs

lemma delLoop_inv
    {m t L : Nat} {st : IndexSt} {C : Nat → List Nat}
    (ctx : IdxCtx m t L st C) (hL : 24 * m ≤ L)
    {key : List Nat} {h idx : Nat} {chk : Nat → Bool}
    (hidx : idx < t) :
    ∀ (fuel : Nat) (l₁ l₂ : List Nat) (pred curr : Nat) (res : Int) (st' : IndexSt),
      C idx = l₁ ++ l₂ →
      ChainSeg st.nodes (st.table.getD idx 0) l₁ curr →
      NodeChain st.nodes curr l₂ →
      ((pred = EOC ∧ l₁ = []) ∨ ∃ l₁', l₁ = l₁' ++ [pred]) →
      delLoop key h idx chk fuel pred curr st = some (res, st') →
      InvIdx m t L st' := by
  intro fuel
  induction fuel with
  | zero =>
    intro l₁ l₂ pred curr res st' _ _ _ _ hstep
    simp [delLoop] at hstep
  | succ fuel ih =>
    intro l₁ l₂ pred curr res st' hsplit hseg hl2 hpred hstep
    rw [delLoop] at hstep
    by_cases hc : curr = EOC
    · rw [if_pos hc] at hstep
      simp only [Option.some.injEq, Prod.mk.injEq] at hstep
      obtain ⟨-, rfl⟩ := hstep
      exact ⟨C, ctx⟩
    · rw [if_neg hc] at hstep
      obtain ⟨l₂', rfl, htail⟩ := nodeChain_cons_inv hl2 hc
      dsimp only at hstep
      by_cases hdup : st.nodes.getD (3 * curr) 0 = h ∧
          chk (st.nodes.getD (3 * curr + 1) 0) = true
      · rw [if_pos hdup] at hstep
        by_cases hp : pred = EOC
        · rw [if_pos hp] at hstep
          dsimp only at hstep
          simp only [Option.some.injEq, Prod.mk.injEq] at hstep
          obtain ⟨-, rfl⟩ := hstep
          rcases hpred with ⟨-, rfl⟩ | ⟨l₁'', rfl⟩
          · rw [List.nil_append] at hsplit
            exact inv_delSplice_head ctx hidx hsplit htail
          · exact absurd hp (chainSeg_mem_ne_eoc hseg pred (by simp))
        · rw [if_neg hp] at hstep
          dsimp only at hstep
          simp only [Option.some.injEq, Prod.mk.injEq] at hstep
          obtain ⟨-, rfl⟩ := hstep
          rcases hpred with ⟨hpe, -⟩ | ⟨l₁'', rfl⟩
          · exact absurd hpe hp
          · exact inv_delSplice_mid ctx hL hidx hsplit hseg htail
      · rw [if_neg hdup] at hstep
        by_cases hgt : h > st.nodes.getD (3 * curr) 0
        · rw [if_pos hgt] at hstep
          simp only [Option.some.injEq, Prod.mk.injEq] at hstep
          obtain ⟨-, rfl⟩ := hstep
          exact ⟨C, ctx⟩
        · rw [if_neg hgt] at hstep
          refine ih (l₁ ++ [curr]) l₂' curr (st.nodes.getD (3 * curr + 2) 0) res st' ?_ ?_
            htail (Or.inr ⟨l₁, rfl⟩) hstep
          · rw [hsplit]
            simp
          · exact chainSeg_snoc hseg hc rfl

lemma indexSet_inv {m t L : Nat} {st st' : IndexSt}
    (hinv : InvIdx m t L st) (hL : 24 * m ≤ L) (hEOC : 8 * m < EOC) (ht : 0 < t)
    {fuel id : Nat} {key : List Nat} {chk : Nat → Bool} {res : Bool}
    (hstep : indexSet fuel id key chk st = some (res, st')) :
    InvIdx m t L st' := by
  obtain ⟨C, ctx⟩ := hinv
  rw [indexSet] at hstep
  (try dsimp only at hstep)
  have hidx : calcHash 199 key % st.table.length < t := by
    rw [ctx.htb]
    exact Nat.mod_lt _ ht
  exact setLoop_inv ctx hL hEOC hidx fuel []
    (C (calcHash 199 key % st.table.length)) EOC
    (st.table.getD (calcHash 199 key % st.table.length) 0) res st'
    (by simp) (.nil _) (ctx.hchain _ hidx) (by simp) (Or.inl ⟨rfl, rfl⟩) hstep

lemma indexDelete_inv {m t L : Nat} {st st' : IndexSt}
    (hinv : InvIdx m t L st) (hL : 24 * m ≤ L) (ht : 0 < t)
    {fuel : Nat} {key : List Nat} {chk : Nat → Bool} {res : Int}
    (hstep : indexDelete fuel key chk st = some (res, st')) :
    InvIdx m t L st' := by
  rw [indexDelete] at hstep
  by_cases hbl : bloomHas key st.bloom = false
  · rw [if_pos hbl] at hstep
    simp only [Option.some.injEq, Prod.mk.injEq] at hstep
    obtain ⟨-, rfl⟩ := hstep
    exact hinv
  · rw [if_neg hbl] at hstep
    (try dsimp only at hstep)
    obtain ⟨C, ctx⟩ := hinv
    have hidx : calcHash 199 key % st.table.length < t := by
      rw [ctx.htb]
      exact Nat.mod_lt _ ht
    exact delLoop_inv ctx hL hidx fuel []
      (C (calcHash 199 key % st.table.length)) EOC
      (st.table.getD (calcHash 199 key % st.table.length) 0) res st'
      (by simp) (.nil _) (ctx.hchain _ hidx) (Or.inl ⟨rfl, rfl⟩) hstep

lemma reachable_inv {m b t : Nat} {nodes0 : List Nat} {st : IndexSt}
    (hr : ReachableIdx m b t nodes0 st) (ht : 0 < t)
    (hL : 24 * m ≤ nodes0.length) (hEOC : 8 * m < EOC) :
    InvIdx m t nodes0.length st := by
  induction hr with
  | init =>
    refine ⟨fun _ => [], by simp [initIdx], by simp [initIdx], rfl, ?_, ?_, ?_, ?_, ?_, ?_⟩
    · intro i
      show (List.replicate m 0).getD i 0 < 256
      rw [getD_replicate]
      rw [ite_self]
      norm_num
    · intro bk hbk
      show NodeChain nodes0 ((List.replicate t EOC).getD bk 0) []
      rw [getD_replicate, if_pos hbk]
      exact .nil
    · intro bk hbk
      simp [chainHashes]
    · intro bk hbk s hs
      simp at hs
    · intro bk hbk
      exact List.nodup_nil
    · intro bk bk' _ _ _ s hs
      simp at hs
  | set st0 res st' fuel id key chk hk hr0 hstep ih =>
    exact indexSet_inv ih hL hEOC ht hstep
  | del st0 res st' fuel key chk hk hr0 hstep ih =>
    exact indexDelete_inv ih hL ht hstep

/-- C5 (amended): at every index state reachable from `Index.clear` by `set`
and `delete` operations (bitmap of `m` bytes, table of `t` buckets, node
arena covering the `8·m` allocatable slots, slot ids below `EOC`), every
bucket's chain is a finite slot sequence terminating at `EOC`, and the node
hash values along it are **non-increasing** — not strictly descending: `set`
places a new node with an equal hash in front of the first node of that hash
(see the strictness counterexample), so consecutive equal hashes do occur for
distinct keys with colliding 32-bit hashes. -/
theorem bucket_chain_hashes_nonincreasing_to_eoc
    {m b t : Nat} {nodes0 : List Nat} {st : IndexSt}
    (ht : 0 < t) (hL : 24 * m ≤ nodes0.length) (hEOC : 8 * m < EOC)
    (hr : ReachableIdx m b t nodes0 st) :
    ∀ bk, bk < st.table.length →
      ∃ l, NodeChain st.nodes (st.table.getD bk 0) l ∧
        List.Chain' (fun x y => x ≥ y) (chainHashes st.nodes l) := by
  obtain ⟨C, ctx⟩ := reachable_inv hr ht hL hEOC
  intro bk hbk
  rw [ctx.htb] at hbk
  exact ⟨C bk, ctx.hchain bk hbk, ctx.hsorted bk hbk⟩

/-- Witness for the C5 amended theorem: the freshly cleared index with a
one-byte bitmap, one bucket and a 24-word node arena, at bucket 0. -/
theorem bucket_chain_hashes_nonincreasing_to_eoc_witness :
    (0 < 1 ∧ 24 * 1 ≤ (List.replicate 24 0 : List Nat).length ∧ 8 * 1 < EOC ∧
      ReachableIdx 1 1 1 (List.replicate 24 0) (initIdx 1 1 1 (List.replicate 24 0)) ∧
      0 < (initIdx 1 1 1 (List.replicate 24 0)).table.length) ∧
    ∃ l, NodeChain (initIdx 1 1 1 (List.replicate 24 0)).nodes
        ((initIdx 1 1 1 (List.replicate 24 0)).table.getD 0 0) l ∧
      List.Chain' (fun x y => x ≥ y)
        (chainHashes (initIdx 1 1 1 (List.replicate 24 0)).nodes l) :=
  ⟨⟨by decide, by decide, by decide, ReachableIdx.init, by decide⟩,
    bucket_chain_hashes_nonincreasing_to_eoc (by decide) (by decide) (by decide)
      ReachableIdx.init 0 (by decide)⟩
